import Mathlib

/-!
# upfCc: time-bounded aggregation over an SSE feed

A shallow embedding of

* `internal/types/dimensions.go` (the dimension constants, `IsValidDimension`),
* `internal/sseclient/sse_client.go` (`SocialPost`, `Post`, `GetValue`,
  `processDataLine`, `scanResponse`, `ReadStream`),
* `internal/aggregator/aggregator.go` (`AnalysisResult`, `AggregateData`),
* `internal/handler/handler.go` (`AnalysisHandler` and its helpers).

Conventions.

* A Go channel that is written by one goroutine and drained by `for ... range`
  until it is closed is the finite list of the values sent on it, in order.
* Go `int` and `int64` are 64-bit two's complement.  The running sum
  `totalValue` is reduced with `wrapInt64` after every addition: two events
  are enough to overflow it.  The counter `TotalPosts` grows by one per
  received event and is kept exact: it would take `2^63` events to overflow
  it, more than one per nanosecond over the longest `time.Duration`.
* The three float operations the aggregator uses (the constant `0`, the
  conversion `float64(x)`, and `/`) are the fields of `Float64Model`; results
  about the aggregator hold for every such model.  `float64` is the model with
  IEEE 754 rounding to nearest, `exactFloat` the one without rounding.
* The goroutine started by `ReadStream` is the only writer of its channel; what
  it does to the channel is the sequence of its sends and closes, in program
  order (`ReadStreamOps`).  The reader of the channel takes every send.
* `json.Unmarshal`, `time.ParseDuration` and the JSON encoder are parameters.
  `bufio.Scanner` is `scanTokens`: it yields the lines of the body one by one
  and stops at the first line that does not fit its 64 KiB buffer.
-/

namespace Upfcc

/-! ## internal/types/dimensions.go -/

/-- Go `type Dimension string`. -/
abbrev Dimension := String

def types.Likes : Dimension := "likes"
def types.Comments : Dimension := "comments"
def types.Favorites : Dimension := "favorites"
def types.Retweets : Dimension := "retweets"

/-- Go `IsValidDimension`: a `switch` with the four constants in one `case` and
`default: return false`. -/
def types.IsValidDimension (dimension : Dimension) : Bool :=
  if dimension = types.Likes ∨ dimension = types.Comments ∨
      dimension = types.Favorites ∨ dimension = types.Retweets then true
  else false

/-! ## internal/sseclient/sse_client.go: data -/

/-- Go `SocialPost`: a timestamp and four counters. -/
structure SocialPost where
  Timestamp : Int := 0
  Likes : Int := 0
  Comments : Int := 0
  Favorites : Int := 0
  Retweets : Int := 0
deriving DecidableEq, Repr

/-- Go `Post`: an event-type label (Go field `Type`) with its payload. -/
structure Post where
  Typ : String
  Data : SocialPost
deriving DecidableEq, Repr

/-- Go `(*SocialPost).GetValue`: a `switch` over the four dimension constants
with `default: return 0`. -/
def SocialPost.GetValue (p : SocialPost) (dimension : Dimension) : Int :=
  if dimension = types.Likes then p.Likes
  else if dimension = types.Comments then p.Comments
  else if dimension = types.Favorites then p.Favorites
  else if dimension = types.Retweets then p.Retweets
  else 0

/-! ## Machine arithmetic -/

/-- The value a 64-bit two's complement register holds after an exact result
`x`: the representative of `x` modulo `2^64` in `[-2^63, 2^63)`. -/
def wrapInt64 (x : Int) : Int :=
  (x + 9223372036854775808) % 18446744073709551616 - 9223372036854775808

/-- The three `float64` operations used by `AggregateData`, with the two facts
about them that the aggregator relies on: `float64(0)` is the constant `0`, and
`0 / float64(n)` is `0` for a positive count `n`. -/
structure Float64Model (F : Type) where
  zero : F
  ofInt : Int → F
  div : F → F → F
  ofInt_zero : ofInt 0 = zero
  zero_div : ∀ n : Int, 0 < n → div zero (ofInt n) = zero

/-- Exact arithmetic as an instance of `Float64Model`: conversion and division
without rounding.  It gives the `float64` values wherever the integers
converted and the quotient are representable without rounding. -/
def exactFloat : Float64Model ℚ where
  zero := 0
  ofInt := fun x => (x : ℚ)
  div := fun a b => a / b
  ofInt_zero := by simp
  zero_div := by intro n _; simp

/-- The integer nearest to `x`, the even one of the two when `x` lies halfway
between them. -/
def roundHalfEven (x : ℚ) : Int :=
  if x - ⌊x⌋ < 1 / 2 then ⌊x⌋
  else if 1 / 2 < x - ⌊x⌋ then ⌊x⌋ + 1
  else if ⌊x⌋ % 2 = 0 then ⌊x⌋ else ⌊x⌋ + 1

/-- The `float64` nearest to `x` (IEEE 754 binary64, round to nearest, ties to
even): with `2^e ≤ |x| < 2^(e+1)`, the multiple of `2^(e-52)` nearest to `x`.
The exponent is not bounded, which makes no difference for magnitudes between
`2^-1022` and `2^1023`. -/
def roundFloat64 (x : ℚ) : ℚ :=
  if x = 0 then 0
  else (roundHalfEven (x / 2 ^ (Int.log 2 |x| - 52)) : ℚ) * 2 ^ (Int.log 2 |x| - 52)

/-- Go `float64` as an instance of `Float64Model`, a value being the rational
number it denotes: `float64(x)` rounds the integer `x`, and `a / b` rounds the
exact quotient.  `AggregateData` converts integers of the `int` range and
divides by the conversion of a positive count, so every value it computes is
zero or of magnitude between `2^-63` and `2^63`. -/
def float64 : Float64Model ℚ where
  zero := 0
  ofInt := fun x => roundFloat64 (x : ℚ)
  div := fun a b => roundFloat64 (a / b)
  ofInt_zero := by simp [roundFloat64]
  zero_div := by intro n _; simp [roundFloat64]

/-! ## internal/aggregator/aggregator.go -/

/-- Go `AnalysisResult`. -/
structure AnalysisResult (F : Type) where
  TotalPosts : Int
  MinTimestamp : Int
  MaxTimestamp : Int
  AvgValue : F
deriving DecidableEq, Repr

/-- The local state of `AggregateData` while it drains the channel:
`analysisResult` (its first three fields) and `totalValue`. -/
structure AggState where
  TotalPosts : Int
  MinTimestamp : Int
  MaxTimestamp : Int
  totalValue : Int
deriving DecidableEq, Repr

/-- State on entry to the loop: `var analysisResult AnalysisResult` is
zero-valued and `totalValue := 0`. -/
def AggState.init : AggState :=
  { TotalPosts := 0, MinTimestamp := 0, MaxTimestamp := 0, totalValue := 0 }

/-- One iteration of `for post := range postChan`. -/
def aggregateStep (dimension : Dimension) (s : AggState) (post : Post) : AggState :=
  let minTs := if s.TotalPosts = 0 then post.Data.Timestamp else s.MinTimestamp
  { TotalPosts := s.TotalPosts + 1
    MinTimestamp := minTs
    MaxTimestamp := post.Data.Timestamp
    totalValue := wrapInt64 (s.totalValue + post.Data.GetValue dimension) }

/-- The statements after the loop: compute `AvgValue` and build the result
that is sent on `resultChan`. -/
def finish {F : Type} (fl : Float64Model F) (s : AggState) : AnalysisResult F :=
  { TotalPosts := s.TotalPosts
    MinTimestamp := s.MinTimestamp
    MaxTimestamp := s.MaxTimestamp
    AvgValue := if 0 < s.TotalPosts then fl.div (fl.ofInt s.totalValue) (fl.ofInt s.TotalPosts)
                else fl.zero }

/-- The loop of `AggregateData` over the events received from the channel. -/
def drain (dimension : Dimension) (posts : List Post) : AggState :=
  posts.foldl (aggregateStep dimension) AggState.init

/-- Go `(*Aggregator).AggregateData`.  `ReadStream` is the `SSEClientInterface`
of the aggregator: the events its channel delivers before it is closed.  The
value returned is the one sent on `resultChan`. -/
def AggregateData {F : Type} (fl : Float64Model F) (ReadStream : Int → List Post)
    (duration : Int) (dimension : Dimension) : AnalysisResult F :=
  finish fl (drain dimension (ReadStream duration))

/-! ## internal/sseclient/sse_client.go: the line reader -/

/-- Go `strings.HasPrefix`. -/
def HasPrefix (s pre : String) : Bool :=
  pre.toList.isPrefixOf s.toList

/-- Go `strings.TrimPrefix`: `s` without the leading `pre`, or `s` itself when
it does not start with `pre`. -/
def TrimPrefix (s pre : String) : String :=
  if HasPrefix s pre then String.mk (s.toList.drop pre.length) else s

/-- The value of a Go `map[string]SocialPost`: its entries, one per key. -/
abbrev EventMap := List (String × SocialPost)

/-- The two services of the Go runtime and standard library that
`processDataLine` calls.

* `Unmarshal data` is `json.Unmarshal([]byte(data), &event)` for
  `event : map[string]SocialPost`: `none` when it returns an error, otherwise
  the decoded map, whose keys are distinct.
* `rangeOrder k event` is the order in which the `k`-th `range` loop executed
  over a decoded map visits the entries of `event`.  Go leaves that order
  unspecified; it is some rearrangement of the entries. -/
structure Decoder where
  Unmarshal : String → Option EventMap
  rangeOrder : Nat → EventMap → EventMap
  keys_nodup : ∀ data event, Unmarshal data = some event → (event.map Prod.fst).Nodup
  rangeOrder_perm : ∀ k event, List.Perm (rangeOrder k event) event

/-- What `scanResponse` has done so far: the events sent on `postChan`, in
order, and the number of `range` loops over a decoded map already executed. -/
structure ScanState where
  sent : List Post
  ranges : Nat
deriving DecidableEq, Repr

/-- The event `Post{Type: eventType, Data: post}` built in `processDataLine`. -/
def mkPost (kv : String × SocialPost) : Post :=
  { Typ := kv.1, Data := kv.2 }

/-- Go `(*SSEClient).processDataLine`: return without sending when decoding
fails, otherwise send one event per entry of the decoded map. -/
def processDataLine (dec : Decoder) (data : String) (s : ScanState) : ScanState :=
  match dec.Unmarshal data with
  | none => s
  | some event =>
    { sent := s.sent ++ (dec.rangeOrder s.ranges event).map mkPost
      ranges := s.ranges + 1 }

/-- The body of `for scanner.Scan()` in `scanResponse`, for one scanned line. -/
def scanLine (dec : Decoder) (s : ScanState) (line : String) : ScanState :=
  if HasPrefix line "data: " then processDataLine dec (TrimPrefix line "data: ") s
  else s

/-- Go `len(s)` for a string: the number of bytes of its UTF-8 encoding. -/
def byteLen (s : String) : Nat :=
  (s.toList.map Char.utf8Size).sum

/-- Go `bufio.MaxScanTokenSize`, `64 * 1024`: the size beyond which the buffer
of a scanner made by `bufio.NewScanner` does not grow. -/
def MaxScanTokenSize : Nat := 65536

/-- Go `dropCR` of `bufio`: the line without one trailing carriage return. -/
def dropCR (data : String) : String :=
  if data.toList.getLast? = some '\r' then String.mk data.toList.dropLast else data

/-- The scanner `bufio.NewScanner(resp.Body)` with its default split function
`bufio.ScanLines` and its default buffer.  `body` is the response body as the
lines received before the body ends, a read fails or the deadline fires, each
without its newline.  The result is the texts `scanner.Text()` of the calls of
`scanner.Scan()` that return true: a line of fewer than `MaxScanTokenSize`
bytes is found in the buffer and yielded without its trailing carriage
return; at the first longer line the buffer is full without a newline in it,
`Scan` returns false with `ErrTooLong` and nothing more is read. -/
def scanTokens : List String → List String
  | [] => []
  | raw :: rest =>
    if byteLen raw < MaxScanTokenSize then dropCR raw :: scanTokens rest else []

/-- The scan of `body` stops with `ErrTooLong`: some line does not fit the
buffer. -/
def scanTooLong (body : List String) : Bool :=
  body.any (fun raw => decide (MaxScanTokenSize ≤ byteLen raw))

/-- Go `(*SSEClient).scanResponse`.  `body` is the response body as the lines
received (see `scanTokens`); the result is the sequence of events sent on
`postChan` before it is closed. -/
def scanResponse (dec : Decoder) (body : List String) : List Post :=
  ((scanTokens body).foldl (scanLine dec) { sent := [], ranges := 0 }).sent

/-- Go `(*SSEClient).ReadStream`.  `connect duration` is the outcome of
building and sending the request under the deadline: `none` when either step
fails (the channel is closed at once), otherwise the lines of the response
body received until the body ends, a read fails or the deadline fires. -/
def ReadStream (dec : Decoder) (connect : Int → Option (List String))
    (duration : Int) : List Post :=
  match connect duration with
  | none => []
  | some body => scanResponse dec body

/-! ## internal/sseclient/sse_client.go: what the reader goroutine does to the channel -/

/-- The steps of the goroutine started by `ReadStream` that are visible from
outside: a send on `postChan`, the `log.Printf` after a failed scan, and
`close(postChan)`. -/
inductive ChanOp where
  | send (p : Post)
  | logScanError
  | close
deriving DecidableEq, Repr

/-- How the response body stopped delivering bytes: it ended, a read failed,
or the deadline of the request context fired (in the last two cases
`scanner.Err()` is not nil). -/
inductive ScanEnd where
  | bodyEnd
  | readError
  | deadline
deriving DecidableEq, Repr

/-- The execution paths of the goroutine started by `ReadStream`:
`http.NewRequestWithContext` fails, `http.DefaultClient.Do` fails, or a
response arrives and its body delivers `lines` before it stops with `stop`. -/
inductive ConnectOutcome where
  | requestFailed
  | doFailed
  | response (lines : List String) (stop : ScanEnd)
deriving DecidableEq, Repr

/-- The body lines received on a path, `none` on the two paths without a
response: the argument `connect` of `ReadStream`. -/
def ConnectOutcome.scanned : ConnectOutcome → Option (List String)
  | .requestFailed => none
  | .doFailed => none
  | .response lines _ => some lines

/-- The sends of `processDataLine` for one payload, when `k` `range` loops
have run before, with the number of `range` loops run afterwards. -/
def processDataLineOps (dec : Decoder) (k : Nat) (data : String) : List ChanOp × Nat :=
  match dec.Unmarshal data with
  | none => ([], k)
  | some event => ((dec.rangeOrder k event).map (fun kv => ChanOp.send (mkPost kv)), k + 1)

/-- The sends of the loop `for scanner.Scan()` of `scanResponse` over the
scanned lines. -/
def scanLoopOps (dec : Decoder) : Nat → List String → List ChanOp
  | _, [] => []
  | k, line :: rest =>
    if HasPrefix line "data: " then
      (processDataLineOps dec k (TrimPrefix line "data: ")).1 ++
        scanLoopOps dec (processDataLineOps dec k (TrimPrefix line "data: ")).2 rest
    else scanLoopOps dec k rest

/-- The steps of `scanResponse`: the loop over the scanned lines, the log line
when `scanner.Err()` is not nil (a line was too long, a read failed or the
deadline fired), then `close(postChan)`. -/
def scanResponseOps (dec : Decoder) (lines : List String) (stop : ScanEnd) : List ChanOp :=
  scanLoopOps dec 0 (scanTokens lines) ++
    (if stop = ScanEnd.bodyEnd ∧ scanTooLong lines = false then []
     else [ChanOp.logScanError]) ++ [ChanOp.close]

/-- The steps of the goroutine started by `ReadStream` on each path. -/
def ReadStreamOps (dec : Decoder) : ConnectOutcome → List ChanOp
  | .requestFailed => [ChanOp.close]
  | .doFailed => [ChanOp.close]
  | .response lines stop => scanResponseOps dec lines stop

/-! ## internal/handler/handler.go -/

/-- What `AnalysisHandler` depends on: `time.ParseDuration` (an error message
or a duration in nanoseconds), the aggregator behind the `Aggregator`
interface (the result it sends on `resultChan`), and the JSON encoding of the
result onto the response writer (an error message or the bytes written). -/
structure HandlerEnv (F : Type) where
  ParseDuration : String → Except String Int
  AggregateData : Int → Dimension → AnalysisResult F
  Encode : AnalysisResult F → Except String String

/-- A response written with `http.Error`, or the JSON response: status code
and body. -/
structure Response where
  status : Nat
  body : String
deriving DecidableEq, Repr

/-- What one call of `AnalysisHandler` did: the response it wrote and the
calls of `AggregateData` it made, with their arguments. -/
structure HandlerOutcome where
  response : Response
  aggregateCalls : List (Int × Dimension)
deriving DecidableEq, Repr

def StatusBadRequest : Nat := 400
def StatusInternalServerError : Nat := 500
def StatusOK : Nat := 200

/-- Go `http.Error(w, msg, code)`: status `code`, body `msg` and a newline. -/
def httpError (msg : String) (code : Nat) : Response :=
  { status := code, body := msg ++ "\n" }

/-- Go `(*Handler).parseDuration`; `durationStr` is
`r.URL.Query().Get("duration")`, empty when the parameter is absent.  On
failure the error response it wrote is returned. -/
def parseDuration {F : Type} (env : HandlerEnv F) (durationStr : String) :
    Except Response Int :=
  match env.ParseDuration durationStr with
  | .error err => .error (httpError ("Invalid duration: " ++ err) StatusBadRequest)
  | .ok duration => .ok duration

/-- Go `(*Handler).parseDimension`; `dimensionStr` is
`r.URL.Query().Get("dimension")`, empty when the parameter is absent. -/
def parseDimension (dimensionStr : String) : Except Response Dimension :=
  if !types.IsValidDimension dimensionStr then
    .error (httpError ("Invalid dimension: " ++ dimensionStr) StatusBadRequest)
  else .ok dimensionStr

/-- Go `(*Handler).writeJSONResponse`. -/
def writeJSONResponse {F : Type} (env : HandlerEnv F) (result : AnalysisResult F) : Response :=
  match env.Encode result with
  | .error err => httpError ("Failed to encode response: " ++ err) StatusInternalServerError
  | .ok body => { status := StatusOK, body := body }

/-- Go `(*Handler).AnalysisHandler`. -/
def AnalysisHandler {F : Type} (env : HandlerEnv F) (durationStr dimensionStr : String) :
    HandlerOutcome :=
  match parseDuration env durationStr with
  | .error resp => { response := resp, aggregateCalls := [] }
  | .ok duration =>
    match parseDimension dimensionStr with
    | .error resp => { response := resp, aggregateCalls := [] }
    | .ok dimension =>
      { response := writeJSONResponse env (env.AggregateData duration dimension)
        aggregateCalls := [(duration, dimension)] }

/-! ## Descriptions of the reader, written from the specification -/

/-- The scanned lines that carry a payload: those beginning with `data: `,
with the six-character marker stripped. -/
def dataPayloads (lines : List String) : List String :=
  (lines.filter (fun l => HasPrefix l "data: ")).map (fun l => TrimPrefix l "data: ")

/-- The mappings decoded from the payload lines, in line order; payloads that
fail to decode are skipped. -/
def decodedMaps (dec : Decoder) (lines : List String) : List EventMap :=
  (dataPayloads lines).filterMap dec.Unmarshal

/-- A line that neither carries a payload nor stops the scanner: it does not
begin with `data: ` and has fewer than `MaxScanTokenSize` bytes. -/
def ignoredLine (raw : String) : Bool :=
  !HasPrefix raw "data: " && decide (byteLen raw < MaxScanTokenSize)

/-- The events sent for the decoded maps `maps`, in line order, when `k`
`range` loops have run before: each map contributes its entries in the order
its `range` loop visits them. -/
def emitFrom (dec : Decoder) : Nat → List EventMap → List Post
  | _, [] => []
  | k, m :: ms => (dec.rangeOrder k m).map mkPost ++ emitFrom dec (k + 1) ms

/-! ## Descriptions of the aggregate, written from the specification -/

/-- The values of the chosen dimension, in arrival order. -/
def dimValues (dimension : Dimension) (posts : List Post) : List Int :=
  posts.map (fun p => p.Data.GetValue dimension)

/-- The timestamps of the events, in arrival order. -/
def timestamps (posts : List Post) : List Int :=
  posts.map (fun p => p.Data.Timestamp)

/-- The four recognised dimension names. -/
def recognised (dimension : Dimension) : Prop :=
  dimension = types.Likes ∨ dimension = types.Comments ∨
    dimension = types.Favorites ∨ dimension = types.Retweets

instance (dimension : Dimension) : Decidable (recognised dimension) := by
  unfold recognised; infer_instance

/-- The number of times the channel is closed in a sequence of steps. -/
def closeCount (ops : List ChanOp) : Nat :=
  ops.count ChanOp.close

/-- The events sent after the first `close` in a sequence of steps. -/
def sentAfterClose (ops : List ChanOp) : List Post :=
  (ops.dropWhile (fun o => o != ChanOp.close)).filterMap
    (fun o => match o with
      | ChanOp.send p => some p
      | _ => none)

/-- The events sent in a sequence of steps, in order. -/
def sentEvents (ops : List ChanOp) : List Post :=
  ops.filterMap (fun o => match o with
    | ChanOp.send p => some p
    | _ => none)

/-- A value fits a Go `int`. -/
def inInt64 (x : Int) : Prop :=
  -9223372036854775808 ≤ x ∧ x < 9223372036854775808

instance (x : Int) : Decidable (inInt64 x) := by
  unfold inInt64; infer_instance

/-- The running sum never leaves the `int` range: the exact sum of the values
of every initial segment of the events fits. -/
def noOverflow (dimension : Dimension) (posts : List Post) : Prop :=
  ∀ k, k ≤ posts.length → inInt64 (dimValues dimension (posts.take k)).sum

/-- The smallest value of the chosen dimension among `p` and `ps`. -/
def smallestValue (dimension : Dimension) (p : Post) (ps : List Post) : Int :=
  (dimValues dimension ps).foldl min (p.Data.GetValue dimension)

/-- The largest value of the chosen dimension among `p` and `ps`. -/
def largestValue (dimension : Dimension) (p : Post) (ps : List Post) : Int :=
  (dimValues dimension ps).foldl max (p.Data.GetValue dimension)

/-! ## Concrete inputs used in the examples -/

/-- A payload with the given timestamp, `likes` and `comments`; the other
counters are absent. -/
def tsPost (ts likes comments : Int) : SocialPost :=
  { Timestamp := ts, Likes := likes, Comments := comments }

/-- Payload of one `instagram_media` event. -/
def payloadA : String :=
  "\x7b\"instagram_media\":\x7b\"timestamp\":1700000000,\"likes\":10,\"comments\":5\x7d\x7d"

/-- Payload with two keys, `tweet` and `instagram_media`. -/
def payloadTwo : String :=
  "\x7b\"tweet\":\x7b\"timestamp\":1600000000,\"likes\":7,\"comments\":1\x7d," ++
  "\"instagram_media\":\x7b\"timestamp\":1700000060,\"likes\":20,\"comments\":10\x7d\x7d"

/-- A payload that is not JSON. -/
def payloadBad : String := "invalid data"

/-- The results of `json.Unmarshal` on the payloads above; every other string
is treated as undecodable. -/
def sampleUnmarshal (data : String) : Option EventMap :=
  if data = payloadA then some [("instagram_media", tsPost 1700000000 10 5)]
  else if data = payloadTwo then
    some [("tweet", tsPost 1600000000 7 1), ("instagram_media", tsPost 1700000060 20 10)]
  else none

/-- A runtime whose `range` loops visit the entries in stored order on even
turns and in reverse on odd turns. -/
def sampleDecoder : Decoder where
  Unmarshal := sampleUnmarshal
  rangeOrder := fun k event => if k % 2 = 0 then event else event.reverse
  keys_nodup := by
    intro data event h
    unfold sampleUnmarshal at h
    split_ifs at h <;> simp at h <;> subst h <;> decide
  rangeOrder_perm := by
    intro k event
    dsimp only
    split_ifs
    · exact List.Perm.refl _
    · exact List.reverse_perm _

/-- A line of 70000 letters, more than the scanner buffer holds. -/
def longLine : String := String.mk (List.replicate 70000 'x')

/-- A `data: ` line whose payload is 70000 letters. -/
def longDataLine : String := "data: " ++ longLine

def lineA : String := "data: " ++ payloadA
def lineTwo : String := "data: " ++ payloadTwo
def lineBad : String := "data: " ++ payloadBad


def evA : Post := { Typ := "instagram_media", Data := tsPost 1700000000 10 5 }
def evB : Post := { Typ := "instagram_media", Data := tsPost 1700000060 20 10 }
/-- An event that arrives after `evB` but carries an older timestamp. -/
def evOld : Post := { Typ := "tweet", Data := tsPost 1600000000 7 1 }
/-- An event whose `likes` counter is `2^53 + 1`. -/
def evOdd53 : Post := { Typ := "tweet", Data := tsPost 1700000000 9007199254740993 0 }

/-- An event whose `likes` counter is `2^62`. -/
def evBig : Post := { Typ := "tweet", Data := tsPost 1700000000 4611686018427387904 0 }

/-- The results of `time.ParseDuration` on `5s` and `1m`; every other string
is treated as unparsable. -/
def sampleParseDuration (durationStr : String) : Except String Int :=
  if durationStr = "5s" then .ok 5000000000
  else if durationStr = "1m" then .ok 60000000000
  else .error ("time: invalid duration " ++ durationStr)

/-- A handler environment whose aggregator reads a feed that delivers `evA`
then `evB`, and whose response writer fails on every write, as the
`FailingResponseWriter` of the handler tests does. -/
def sampleEnv : HandlerEnv ℚ where
  ParseDuration := sampleParseDuration
  AggregateData := AggregateData exactFloat (fun _ => [evA, evB])
  Encode := fun _ => .error "simulated write error"

/-! ## Lemmas on the aggregation loop -/

theorem wrapInt64_idem (x : Int) : wrapInt64 (wrapInt64 x) = wrapInt64 x := by
  unfold wrapInt64; omega

theorem wrapInt64_add_left (a b : Int) : wrapInt64 (wrapInt64 a + b) = wrapInt64 (a + b) := by
  unfold wrapInt64; omega

theorem wrapInt64_of_inRange (x : Int) (hlo : -9223372036854775808 ≤ x)
    (hhi : x < 9223372036854775808) : wrapInt64 x = x := by
  unfold wrapInt64; omega

theorem foldl_step_totalPosts (dimension : Dimension) (posts : List Post) (s : AggState) :
    (posts.foldl (aggregateStep dimension) s).TotalPosts = s.TotalPosts + posts.length := by
  induction posts generalizing s with
  | nil => simp
  | cons p ps ih =>
    rw [List.foldl_cons, ih]
    simp only [aggregateStep, List.length_cons]
    push_cast; ring

theorem foldl_step_totalValue (dimension : Dimension) (posts : List Post) (s : AggState) :
    wrapInt64 (posts.foldl (aggregateStep dimension) s).totalValue
      = wrapInt64 (s.totalValue + (dimValues dimension posts).sum) := by
  induction posts generalizing s with
  | nil => simp [dimValues]
  | cons p ps ih =>
    rw [List.foldl_cons, ih]
    simp only [aggregateStep, dimValues, List.map_cons, List.sum_cons]
    rw [wrapInt64_add_left, add_assoc]

theorem foldl_step_totalValue_wrapped (dimension : Dimension) (posts : List Post) (s : AggState)
    (hs : wrapInt64 s.totalValue = s.totalValue) :
    wrapInt64 (posts.foldl (aggregateStep dimension) s).totalValue
      = (posts.foldl (aggregateStep dimension) s).totalValue := by
  induction posts generalizing s with
  | nil => simpa using hs
  | cons p ps ih =>
    rw [List.foldl_cons]
    apply ih
    simp only [aggregateStep]
    exact wrapInt64_idem _

theorem foldl_step_min_of_pos (dimension : Dimension) (posts : List Post) (s : AggState)
    (hs : 0 < s.TotalPosts) :
    (posts.foldl (aggregateStep dimension) s).MinTimestamp = s.MinTimestamp := by
  induction posts generalizing s with
  | nil => rfl
  | cons p ps ih =>
    rw [List.foldl_cons, ih]
    · have : s.TotalPosts ≠ 0 := by omega
      simp [aggregateStep, this]
    · simp only [aggregateStep]; omega

theorem foldl_step_max (dimension : Dimension) (posts : List Post) (s : AggState)
    (h : posts ≠ []) :
    (posts.foldl (aggregateStep dimension) s).MaxTimestamp
      = (posts.getLast h).Data.Timestamp := by
  induction posts generalizing s with
  | nil => exact absurd rfl h
  | cons p ps ih =>
    rw [List.foldl_cons]
    by_cases hps : ps = []
    · subst hps; simp [aggregateStep]
    · rw [ih _ hps, List.getLast_cons hps]

theorem drain_totalPosts (dimension : Dimension) (posts : List Post) :
    (drain dimension posts).TotalPosts = posts.length := by
  simp [drain, foldl_step_totalPosts, AggState.init]

theorem drain_totalValue (dimension : Dimension) (posts : List Post) :
    (drain dimension posts).totalValue = wrapInt64 (dimValues dimension posts).sum := by
  have h1 := foldl_step_totalValue dimension posts AggState.init
  have h2 := foldl_step_totalValue_wrapped dimension posts AggState.init (by decide)
  rw [h2] at h1
  simpa [drain, AggState.init] using h1

theorem drain_min_cons (dimension : Dimension) (p : Post) (ps : List Post) :
    (drain dimension (p :: ps)).MinTimestamp = p.Data.Timestamp := by
  unfold drain
  rw [List.foldl_cons, foldl_step_min_of_pos]
  · simp [aggregateStep, AggState.init]
  · simp [aggregateStep, AggState.init]

theorem drain_max (dimension : Dimension) (posts : List Post) (h : posts ≠ []) :
    (drain dimension posts).MaxTimestamp = (posts.getLast h).Data.Timestamp :=
  foldl_step_max dimension posts AggState.init h

/-! ## The aggregator: zero events, average, first and last timestamp -/

/-- C1: for every duration and dimension, when the stream reader delivers no
event the published result has `TotalPosts = 0`, `MinTimestamp = 0`,
`MaxTimestamp = 0` and `AvgValue = 0`. -/
theorem aggregateData_no_events {F : Type} (fl : Float64Model F)
    (ReadStream : Int → List Post) (duration : Int) (dimension : Dimension)
    (h : ReadStream duration = []) :
    AggregateData fl ReadStream duration dimension
      = { TotalPosts := 0, MinTimestamp := 0, MaxTimestamp := 0, AvgValue := fl.zero } := by
  simp [AggregateData, h, drain, finish, AggState.init]

theorem aggregateData_no_events_witness :
    (fun _ : Int => ([] : List Post)) 5000000000 = [] ∧
    AggregateData exactFloat (fun _ => []) 5000000000 types.Likes
      = { TotalPosts := 0, MinTimestamp := 0, MaxTimestamp := 0, AvgValue := 0 } :=
  ⟨rfl, aggregateData_no_events exactFloat (fun _ => []) 5000000000 types.Likes rfl⟩

/-- C2, as stated, fails: two events with `likes = 2^62` make the running sum
wrap to `-2^63`, and the published average is `-2^62`, not the sum `2^63`
divided by the count `2`.  All numbers involved are powers of two, which
`float64` represents exactly, so exact arithmetic gives the `float64` values. -/
theorem aggregateData_avg_overflow :
    (AggregateData exactFloat (fun _ => [evBig, evBig]) 5000000000 types.Likes).AvgValue
        = -4611686018427387904 ∧
    (AggregateData exactFloat (fun _ => [evBig, evBig]) 5000000000 types.Likes).AvgValue
        ≠ exactFloat.div (exactFloat.ofInt (dimValues types.Likes [evBig, evBig]).sum)
            (exactFloat.ofInt ([evBig, evBig] : List Post).length) := by
  have hv : (AggregateData exactFloat (fun _ => [evBig, evBig]) 5000000000
      types.Likes).AvgValue = -4611686018427387904 := by
    simp only [AggregateData, finish, drain_totalPosts, drain_totalValue]
    norm_num [dimValues, evBig, tsPost, SocialPost.GetValue, types.Likes, wrapInt64, exactFloat]
  refine ⟨hv, ?_⟩
  rw [hv]
  norm_num [dimValues, evBig, tsPost, SocialPost.GetValue, types.Likes, exactFloat]

/-- C2, amended: for every non-empty event sequence and every dimension, when
the exact sum of the selected values lies in the `int64` range, the published
`AvgValue` is the `float64` quotient of that sum and the number of events. -/
theorem aggregateData_avg {F : Type} (fl : Float64Model F)
    (ReadStream : Int → List Post) (duration : Int) (dimension : Dimension)
    (hne : ReadStream duration ≠ [])
    (hlo : -9223372036854775808 ≤ (dimValues dimension (ReadStream duration)).sum)
    (hhi : (dimValues dimension (ReadStream duration)).sum < 9223372036854775808) :
    (AggregateData fl ReadStream duration dimension).AvgValue
      = fl.div (fl.ofInt (dimValues dimension (ReadStream duration)).sum)
          (fl.ofInt (ReadStream duration).length) := by
  have hlen : (0 : Int) < (ReadStream duration).length := by
    have := List.length_pos.mpr hne
    exact_mod_cast this
  simp only [AggregateData, finish, drain_totalPosts, drain_totalValue, hlen, if_true]
  rw [wrapInt64_of_inRange _ hlo hhi]

theorem aggregateData_avg_witness :
    (AggregateData exactFloat (fun _ => [evA, evB]) 5000000000 types.Comments).AvgValue
      = exactFloat.div (exactFloat.ofInt (dimValues types.Comments [evA, evB]).sum)
          (exactFloat.ofInt ([evA, evB] : List Post).length) ∧
    exactFloat.div (exactFloat.ofInt (dimValues types.Comments [evA, evB]).sum)
          (exactFloat.ofInt ([evA, evB] : List Post).length) = 15 / 2 :=
  ⟨aggregateData_avg exactFloat (fun _ => [evA, evB]) 5000000000 types.Comments
      (by simp) (by decide) (by decide),
   by
    rw [show (dimValues types.Comments [evA, evB]).sum = 15 from by decide]
    norm_num [exactFloat]⟩

/-- C3: for every non-empty event sequence, the published `MinTimestamp` is
the timestamp of the first event in arrival order, whatever the later
timestamps are. -/
theorem aggregateData_min_is_first {F : Type} (fl : Float64Model F)
    (ReadStream : Int → List Post) (duration : Int) (dimension : Dimension)
    (p : Post) (ps : List Post) (h : ReadStream duration = p :: ps) :
    (AggregateData fl ReadStream duration dimension).MinTimestamp = p.Data.Timestamp := by
  simp only [AggregateData, finish, h]
  exact drain_min_cons dimension p ps

theorem aggregateData_min_is_first_witness :
    (AggregateData exactFloat (fun _ => [evA, evB, evOld]) 5000000000
      types.Likes).MinTimestamp = 1700000000 :=
  aggregateData_min_is_first exactFloat (fun _ => [evA, evB, evOld]) 5000000000 types.Likes
    evA [evB, evOld] rfl

/-- C4: for every non-empty event sequence, the published `MaxTimestamp` is
the timestamp of the last event in arrival order. -/
theorem aggregateData_max_is_last {F : Type} (fl : Float64Model F)
    (ReadStream : Int → List Post) (duration : Int) (dimension : Dimension)
    (h : ReadStream duration ≠ []) :
    (AggregateData fl ReadStream duration dimension).MaxTimestamp
      = ((ReadStream duration).getLast h).Data.Timestamp := by
  simp only [AggregateData, finish]
  exact drain_max dimension _ h

theorem aggregateData_max_is_last_witness :
    (AggregateData exactFloat (fun _ => [evA, evB, evOld]) 5000000000
      types.Likes).MaxTimestamp = 1600000000 :=
  aggregateData_max_is_last exactFloat (fun _ => [evA, evB, evOld]) 5000000000 types.Likes
    (by simp)

/-- C5, as stated, fails: when an event with an older timestamp arrives last,
`MinTimestamp` exceeds that event's timestamp, `MaxTimestamp` is below the
first event's timestamp, and `MinTimestamp > MaxTimestamp`. -/
theorem aggregateData_min_max_not_extremal :
    ¬ (∀ p ∈ [evB, evOld],
        (AggregateData exactFloat (fun _ => [evB, evOld]) 5000000000
          types.Likes).MinTimestamp ≤ p.Data.Timestamp) ∧
    ¬ (∀ p ∈ [evB, evOld],
        p.Data.Timestamp ≤ (AggregateData exactFloat (fun _ => [evB, evOld]) 5000000000
          types.Likes).MaxTimestamp) ∧
    ¬ ((AggregateData exactFloat (fun _ => [evB, evOld]) 5000000000
          types.Likes).MinTimestamp
        ≤ (AggregateData exactFloat (fun _ => [evB, evOld]) 5000000000
          types.Likes).MaxTimestamp) := by
  have hmin : (AggregateData exactFloat (fun _ => [evB, evOld]) 5000000000
      types.Likes).MinTimestamp = 1700000060 := rfl
  have hmax : (AggregateData exactFloat (fun _ => [evB, evOld]) 5000000000
      types.Likes).MaxTimestamp = 1600000000 := rfl
  rw [hmin, hmax]
  refine ⟨?_, ?_, by decide⟩
  · intro h
    exact absurd (h evOld (by simp)) (by decide)
  · intro h
    exact absurd (h evB (by simp)) (by decide)

/-- C5, amended: for every non-empty event sequence whose timestamps do not
decrease in arrival order, `MinTimestamp` is at most the timestamp of every
event, `MaxTimestamp` is at least the timestamp of every event, and
`MinTimestamp ≤ MaxTimestamp`. -/
theorem aggregateData_min_max_of_sorted {F : Type} (fl : Float64Model F)
    (ReadStream : Int → List Post) (duration : Int) (dimension : Dimension)
    (hne : ReadStream duration ≠ [])
    (hs : List.Sorted (fun a b : Int => a ≤ b) (timestamps (ReadStream duration))) :
    (∀ p ∈ ReadStream duration,
        (AggregateData fl ReadStream duration dimension).MinTimestamp ≤ p.Data.Timestamp) ∧
    (∀ p ∈ ReadStream duration,
        p.Data.Timestamp ≤ (AggregateData fl ReadStream duration dimension).MaxTimestamp) ∧
    (AggregateData fl ReadStream duration dimension).MinTimestamp
      ≤ (AggregateData fl ReadStream duration dimension).MaxTimestamp := by
  have hmax : (AggregateData fl ReadStream duration dimension).MaxTimestamp
      = ((ReadStream duration).getLast hne).Data.Timestamp :=
    drain_max dimension _ hne
  obtain ⟨q, qs, hq⟩ := List.exists_cons_of_ne_nil hne
  have hmin : (AggregateData fl ReadStream duration dimension).MinTimestamp
      = q.Data.Timestamp := by
    simp only [AggregateData, finish, hq]
    exact drain_min_cons dimension q qs
  have hlow : ∀ p ∈ ReadStream duration, q.Data.Timestamp ≤ p.Data.Timestamp := by
    intro p hp
    rw [hq] at hp hs
    rcases List.mem_cons.mp hp with rfl | hp
    · exact le_refl _
    · have := List.rel_of_sorted_cons hs (p.Data.Timestamp)
        (List.mem_map.mpr ⟨p, hp, rfl⟩)
      exact this
  have hup : ∀ p ∈ ReadStream duration,
      p.Data.Timestamp ≤ ((ReadStream duration).getLast hne).Data.Timestamp := by
    intro p hp
    obtain ⟨i, hi, rfl⟩ := List.getElem_of_mem hp
    have hlast : (ReadStream duration).getLast hne
        = (ReadStream duration)[(ReadStream duration).length - 1] :=
      List.getLast_eq_getElem _ _
    rw [hlast]
    have hpw : List.Pairwise (fun a b : Int => a ≤ b) (timestamps (ReadStream duration)) := hs
    rw [timestamps, List.pairwise_map] at hpw
    rcases Nat.lt_or_ge i ((ReadStream duration).length - 1) with hlt | hge
    · exact List.pairwise_iff_getElem.mp hpw i _ hi (by omega) hlt
    · have : i = (ReadStream duration).length - 1 := by omega
      subst this
      exact le_refl _
  rw [hmin, hmax]
  refine ⟨hlow, hup, ?_⟩
  exact hup q (by rw [hq]; simp)

theorem aggregateData_min_max_of_sorted_witness :
    (∀ p ∈ [evA, evB],
        (AggregateData exactFloat (fun _ => [evA, evB]) 5000000000
          types.Likes).MinTimestamp ≤ p.Data.Timestamp) ∧
    (∀ p ∈ [evA, evB],
        p.Data.Timestamp ≤ (AggregateData exactFloat (fun _ => [evA, evB]) 5000000000
          types.Likes).MaxTimestamp) ∧
    (AggregateData exactFloat (fun _ => [evA, evB]) 5000000000 types.Likes).MinTimestamp
      ≤ (AggregateData exactFloat (fun _ => [evA, evB]) 5000000000 types.Likes).MaxTimestamp :=
  aggregateData_min_max_of_sorted exactFloat (fun _ => [evA, evB]) 5000000000 types.Likes
    (by simp) (by decide)

/-! ## The aggregator: count, event types, dimensions -/

theorem drain_congr_data (dimension : Dimension) (posts posts' : List Post)
    (h : posts.map Post.Data = posts'.map Post.Data) :
    drain dimension posts = drain dimension posts' := by
  unfold drain
  generalize AggState.init = s
  induction posts generalizing posts' s with
  | nil =>
    cases posts' with
    | nil => rfl
    | cons q qs => simp at h
  | cons p ps ih =>
    cases posts' with
    | nil => simp at h
    | cons q qs =>
      simp only [List.map_cons, List.cons.injEq] at h
      rw [List.foldl_cons, List.foldl_cons]
      have hstep : aggregateStep dimension s p = aggregateStep dimension s q := by
        simp [aggregateStep, h.1]
      rw [hstep]
      exact ih qs h.2 _

/-- C6: for every event sequence the published `TotalPosts` is the number of
events, and the whole result is the same for any sequence that differs from it
only in the event-type labels. -/
theorem aggregateData_counts_all_types {F : Type} (fl : Float64Model F)
    (ReadStream ReadStream' : Int → List Post) (duration : Int) (dimension : Dimension)
    (h : (ReadStream' duration).map Post.Data = (ReadStream duration).map Post.Data) :
    (AggregateData fl ReadStream duration dimension).TotalPosts = (ReadStream duration).length ∧
    AggregateData fl ReadStream' duration dimension
      = AggregateData fl ReadStream duration dimension := by
  constructor
  · simp [AggregateData, finish, drain_totalPosts]
  · simp only [AggregateData]
    rw [drain_congr_data dimension _ _ h]

theorem aggregateData_counts_all_types_witness :
    (AggregateData exactFloat (fun _ => [evA, evB, evOld]) 5000000000
      types.Likes).TotalPosts = 3 ∧
    AggregateData exactFloat
        (fun _ => [{ evA with Typ := "" }, { evB with Typ := "tweet" },
          { evOld with Typ := "unknown_kind" }]) 5000000000 types.Likes
      = AggregateData exactFloat (fun _ => [evA, evB, evOld]) 5000000000 types.Likes :=
  aggregateData_counts_all_types exactFloat (fun _ => [evA, evB, evOld])
    (fun _ => [{ evA with Typ := "" }, { evB with Typ := "tweet" },
      { evOld with Typ := "unknown_kind" }]) 5000000000 types.Likes rfl

/-- C7: `GetValue` returns the `Likes` field for `likes`, `Comments` for
`comments`, `Favorites` for `favorites`, `Retweets` for `retweets`, and `0` for
every other dimension string. -/
theorem getValue_cases (p : SocialPost) :
    p.GetValue "likes" = p.Likes ∧ p.GetValue "comments" = p.Comments ∧
    p.GetValue "favorites" = p.Favorites ∧ p.GetValue "retweets" = p.Retweets ∧
    ∀ dimension : Dimension, dimension ≠ "likes" → dimension ≠ "comments" →
      dimension ≠ "favorites" → dimension ≠ "retweets" → p.GetValue dimension = 0 := by
  refine ⟨?_, ?_, ?_, ?_, ?_⟩
  · simp [SocialPost.GetValue, types.Likes]
  · simp [SocialPost.GetValue, types.Likes, types.Comments]
  · simp [SocialPost.GetValue, types.Likes, types.Comments, types.Favorites]
  · simp [SocialPost.GetValue, types.Likes, types.Comments, types.Favorites, types.Retweets]
  · intro dimension h1 h2 h3 h4
    simp [SocialPost.GetValue, types.Likes, types.Comments, types.Favorites, types.Retweets,
      h1, h2, h3, h4]

theorem getValue_cases_witness :
    (tsPost 1700000000 10 5).GetValue "likes" = 10 ∧
    (tsPost 1700000000 10 5).GetValue "comments" = 5 ∧
    (tsPost 1700000000 10 5).GetValue "invalid" = 0 ∧
    (tsPost 1700000000 10 5).GetValue "Likes" = 0 ∧
    (tsPost 1700000000 10 5).GetValue "" = 0 :=
  ⟨(getValue_cases (tsPost 1700000000 10 5)).1,
   (getValue_cases (tsPost 1700000000 10 5)).2.1,
   (getValue_cases (tsPost 1700000000 10 5)).2.2.2.2 "invalid"
     (by decide) (by decide) (by decide) (by decide),
   (getValue_cases (tsPost 1700000000 10 5)).2.2.2.2 "Likes"
     (by decide) (by decide) (by decide) (by decide),
   (getValue_cases (tsPost 1700000000 10 5)).2.2.2.2 ""
     (by decide) (by decide) (by decide) (by decide)⟩

theorem getValue_of_not_recognised (p : SocialPost) (dimension : Dimension)
    (h : ¬ recognised dimension) : p.GetValue dimension = 0 := by
  unfold recognised at h
  push_neg at h
  simp [SocialPost.GetValue, h.1, h.2.1, h.2.2.1, h.2.2.2]

theorem dimValues_sum_of_not_recognised (dimension : Dimension) (posts : List Post)
    (h : ¬ recognised dimension) : (dimValues dimension posts).sum = 0 := by
  induction posts with
  | nil => rfl
  | cons p ps ih =>
    simp only [dimValues, List.map_cons, List.sum_cons] at ih ⊢
    rw [ih, getValue_of_not_recognised p.Data dimension h]
    rfl

theorem drain_fields_any_dimension (d d' : Dimension) (posts : List Post) :
    (drain d posts).TotalPosts = (drain d' posts).TotalPosts ∧
    (drain d posts).MinTimestamp = (drain d' posts).MinTimestamp ∧
    (drain d posts).MaxTimestamp = (drain d' posts).MaxTimestamp := by
  refine ⟨?_, ?_, ?_⟩
  · rw [drain_totalPosts, drain_totalPosts]
  · cases posts with
    | nil => rfl
    | cons p ps => rw [drain_min_cons, drain_min_cons]
  · by_cases h : posts = []
    · subst h; rfl
    · rw [drain_max d posts h, drain_max d' posts h]

/-- C8: for a dimension string outside the four recognised names and every
event sequence, `AggregateData` publishes a result with `AvgValue = 0`, and
with the same `TotalPosts`, `MinTimestamp` and `MaxTimestamp` as for any other
dimension (in particular a recognised one) on the same sequence. -/
theorem aggregateData_unrecognised_dimension {F : Type} (fl : Float64Model F)
    (ReadStream : Int → List Post) (duration : Int) (dimension : Dimension)
    (h : ¬ recognised dimension) :
    (AggregateData fl ReadStream duration dimension).AvgValue = fl.zero ∧
    ∀ d : Dimension,
      (AggregateData fl ReadStream duration dimension).TotalPosts
        = (AggregateData fl ReadStream duration d).TotalPosts ∧
      (AggregateData fl ReadStream duration dimension).MinTimestamp
        = (AggregateData fl ReadStream duration d).MinTimestamp ∧
      (AggregateData fl ReadStream duration dimension).MaxTimestamp
        = (AggregateData fl ReadStream duration d).MaxTimestamp := by
  constructor
  · simp only [AggregateData, finish, drain_totalPosts, drain_totalValue,
      dimValues_sum_of_not_recognised dimension _ h]
    split
    · next hpos =>
      rw [show wrapInt64 0 = 0 from by decide, fl.ofInt_zero]
      exact fl.zero_div _ hpos
    · rfl
  · intro d
    exact drain_fields_any_dimension dimension d (ReadStream duration)

theorem aggregateData_unrecognised_dimension_witness :
    ¬ recognised "shares" ∧
    (AggregateData exactFloat (fun _ => [evA, evB]) 5000000000 "shares").AvgValue = 0 ∧
    (AggregateData exactFloat (fun _ => [evA, evB]) 5000000000 "shares").TotalPosts
      = (AggregateData exactFloat (fun _ => [evA, evB]) 5000000000 "likes").TotalPosts :=
  ⟨by decide,
   (aggregateData_unrecognised_dimension exactFloat (fun _ => [evA, evB]) 5000000000
      "shares" (by decide)).1,
   ((aggregateData_unrecognised_dimension exactFloat (fun _ => [evA, evB]) 5000000000
      "shares" (by decide)).2 "likes").1⟩

/-! ## The line reader -/

theorem decodedMaps_nil (dec : Decoder) : decodedMaps dec [] = [] := rfl

theorem decodedMaps_cons_other (dec : Decoder) (l : String) (ls : List String)
    (h : HasPrefix l "data: " = false) :
    decodedMaps dec (l :: ls) = decodedMaps dec ls := by
  simp [decodedMaps, dataPayloads, List.filter_cons, h]

theorem decodedMaps_cons_bad (dec : Decoder) (l : String) (ls : List String)
    (h : HasPrefix l "data: " = true) (hd : dec.Unmarshal (TrimPrefix l "data: ") = none) :
    decodedMaps dec (l :: ls) = decodedMaps dec ls := by
  simp [decodedMaps, dataPayloads, List.filter_cons, h, List.filterMap_cons, hd]

theorem decodedMaps_cons_ok (dec : Decoder) (l : String) (ls : List String) (m : EventMap)
    (h : HasPrefix l "data: " = true) (hd : dec.Unmarshal (TrimPrefix l "data: ") = some m) :
    decodedMaps dec (l :: ls) = m :: decodedMaps dec ls := by
  simp [decodedMaps, dataPayloads, List.filter_cons, h, List.filterMap_cons, hd]

theorem decodedMaps_append (dec : Decoder) (ls ls' : List String) :
    decodedMaps dec (ls ++ ls') = decodedMaps dec ls ++ decodedMaps dec ls' := by
  simp [decodedMaps, dataPayloads, List.filter_append, List.filterMap_append]

theorem decodedMaps_filter (dec : Decoder) (ls : List String) :
    decodedMaps dec (ls.filter (fun l => HasPrefix l "data: ")) = decodedMaps dec ls := by
  simp [decodedMaps, dataPayloads, List.filter_filter]

theorem foldl_scanLine (dec : Decoder) (lines : List String) (s : ScanState) :
    lines.foldl (scanLine dec) s
      = { sent := s.sent ++ emitFrom dec s.ranges (decodedMaps dec lines)
          ranges := s.ranges + (decodedMaps dec lines).length } := by
  induction lines generalizing s with
  | nil => simp [decodedMaps_nil, emitFrom]
  | cons l ls ih =>
    rw [List.foldl_cons, ih]
    cases hp : HasPrefix l "data: " with
    | false =>
      rw [decodedMaps_cons_other dec l ls hp]
      simp [scanLine, hp]
    | true =>
      cases hd : dec.Unmarshal (TrimPrefix l "data: ") with
      | none =>
        rw [decodedMaps_cons_bad dec l ls hp hd]
        simp [scanLine, hp, processDataLine, hd]
      | some m =>
        rw [decodedMaps_cons_ok dec l ls m hp hd]
        simp [scanLine, hp, processDataLine, hd, emitFrom, List.append_assoc]
        omega

theorem scanResponse_eq_emitFrom (dec : Decoder) (body : List String) :
    scanResponse dec body = emitFrom dec 0 (decodedMaps dec (scanTokens body)) := by
  simp [scanResponse, foldl_scanLine]

theorem emitFrom_chunks (dec : Decoder) (maps : List EventMap) (k : Nat)
    (hk : ∀ m ∈ maps, (m.map Prod.fst).Nodup) :
    ∃ chunks : List (List Post), emitFrom dec k maps = chunks.flatten ∧
      List.Forall₂ (fun chunk m => List.Perm chunk (List.map mkPost m) ∧
        (chunk.map Post.Typ).Nodup) chunks maps := by
  induction maps generalizing k with
  | nil => exact ⟨[], rfl, List.Forall₂.nil⟩
  | cons m ms ih =>
    obtain ⟨chunks, hj, hf⟩ := ih (k + 1) (fun m' hm' => hk m' (List.mem_cons_of_mem _ hm'))
    refine ⟨(dec.rangeOrder k m).map mkPost :: chunks, ?_, List.Forall₂.cons ⟨?_, ?_⟩ hf⟩
    · simp [emitFrom, hj]
    · exact (dec.rangeOrder_perm k m).map mkPost
    · have hperm : List.Perm ((dec.rangeOrder k m).map Prod.fst) (m.map Prod.fst) :=
        (dec.rangeOrder_perm k m).map Prod.fst
      have hnd := hperm.nodup_iff.mpr (hk m (List.mem_cons_self _ _))
      simpa [List.map_map, Function.comp_def, mkPost] using hnd

theorem mem_decodedMaps (dec : Decoder) (lines : List String) (m : EventMap)
    (h : m ∈ decodedMaps dec lines) : ∃ data, dec.Unmarshal data = some m := by
  simp only [decodedMaps, List.mem_filterMap] at h
  obtain ⟨data, _, hd⟩ := h
  exact ⟨data, hd⟩


theorem dataMarker_toList : "data: ".toList = ['d', 'a', 't', 'a', ':', ' '] := by decide

theorem hasPrefix_dropCR (raw : String) :
    HasPrefix (dropCR raw) "data: " = HasPrefix raw "data: " := by
  unfold dropCR
  split
  · next h =>
    simp only [HasPrefix, dataMarker_toList]
    generalize raw.toList = cs at h ⊢
    rcases cs with _ | ⟨c1, _ | ⟨c2, _ | ⟨c3, _ | ⟨c4, _ | ⟨c5, _ | ⟨c6, _ | ⟨c7, cs⟩⟩⟩⟩⟩⟩⟩
    all_goals simp_all [List.isPrefixOf, List.dropLast]
  · rfl

theorem scanTokens_cons_fit (raw : String) (rest : List String)
    (h : byteLen raw < MaxScanTokenSize) :
    scanTokens (raw :: rest) = dropCR raw :: scanTokens rest := by
  simp [scanTokens, h]

theorem scanTokens_cons_long (raw : String) (rest : List String)
    (h : MaxScanTokenSize ≤ byteLen raw) :
    scanTokens (raw :: rest) = [] := by
  simp [scanTokens, Nat.not_lt.mpr h]

theorem scanTokens_of_fit (body : List String)
    (h : ∀ raw ∈ body, byteLen raw < MaxScanTokenSize) :
    scanTokens body = body.map dropCR := by
  induction body with
  | nil => rfl
  | cons raw rest ih =>
    rw [scanTokens_cons_fit raw rest (h raw (List.mem_cons_self _ _)),
      ih (fun r hr => h r (List.mem_cons_of_mem _ hr))]
    rfl

theorem decodedMaps_cons_congr (dec : Decoder) (l : String) (ls ls' : List String)
    (h : decodedMaps dec ls = decodedMaps dec ls') :
    decodedMaps dec (l :: ls) = decodedMaps dec (l :: ls') := by
  have h1 := decodedMaps_append dec [l] ls
  have h2 := decodedMaps_append dec [l] ls'
  simp only [List.singleton_append] at h1 h2
  rw [h1, h2, h]

theorem decodedMaps_scan_insert_bad (dec : Decoder) (before after : List String) (bad : String)
    (hp : HasPrefix bad "data: " = true)
    (hbad : dec.Unmarshal (TrimPrefix (dropCR bad) "data: ") = none)
    (hfit : byteLen bad < MaxScanTokenSize) :
    decodedMaps dec (scanTokens (before ++ bad :: after))
      = decodedMaps dec (scanTokens (before ++ after)) := by
  induction before with
  | nil =>
    simp only [List.nil_append]
    rw [scanTokens_cons_fit bad after hfit]
    exact decodedMaps_cons_bad dec _ _ ((hasPrefix_dropCR bad).trans hp) hbad
  | cons b bs ih =>
    simp only [List.cons_append]
    by_cases hb : byteLen b < MaxScanTokenSize
    · rw [scanTokens_cons_fit b _ hb, scanTokens_cons_fit b _ hb]
      exact decodedMaps_cons_congr dec _ _ _ ih
    · rw [scanTokens_cons_long b _ (Nat.not_lt.mp hb), scanTokens_cons_long b _ (Nat.not_lt.mp hb)]

theorem decodedMaps_scan_filter (dec : Decoder) (body : List String) :
    decodedMaps dec (scanTokens (body.filter (fun l => !ignoredLine l)))
      = decodedMaps dec (scanTokens body) := by
  induction body with
  | nil => rfl
  | cons b bs ih =>
    by_cases hb : byteLen b < MaxScanTokenSize
    · cases hp : HasPrefix b "data: " with
      | false =>
        have hig : ignoredLine b = true := by simp [ignoredLine, hp, hb]
        rw [List.filter_cons_of_neg (by simp [hig]), ih, scanTokens_cons_fit b bs hb]
        exact (decodedMaps_cons_other dec _ _ ((hasPrefix_dropCR b).trans hp)).symm
      | true =>
        have hig : ignoredLine b = false := by simp [ignoredLine, hp]
        rw [List.filter_cons_of_pos (by simp [hig]), scanTokens_cons_fit b _ hb,
          scanTokens_cons_fit b _ hb]
        exact decodedMaps_cons_congr dec _ _ _ ih
    · have hig : ignoredLine b = false := by simp [ignoredLine, hb]
      rw [List.filter_cons_of_pos (by simp [hig]), scanTokens_cons_long b _ (Nat.not_lt.mp hb),
        scanTokens_cons_long b _ (Nat.not_lt.mp hb)]

theorem byteLen_append (a b : String) : byteLen (a ++ b) = byteLen a + byteLen b := by
  simp [byteLen, String.toList]

theorem byteLen_replicate (n : Nat) (c : Char) :
    byteLen (String.mk (List.replicate n c)) = n * c.utf8Size := by
  simp [byteLen, String.toList]

theorem byteLen_longLine : byteLen longLine = 70000 := by
  rw [longLine, byteLen_replicate]
  rfl

theorem byteLen_longDataLine : byteLen longDataLine = 70006 := by
  rw [longDataLine, byteLen_append, byteLen_longLine]
  rfl


theorem hasPrefix_longLine : HasPrefix longLine "data: " = false := by
  decide



theorem hasPrefix_marker_append (rest : String) : HasPrefix ("data: " ++ rest) "data: " = true := by
  simp [HasPrefix, String.toList]

theorem trimPrefix_marker_append (rest : String) :
    TrimPrefix ("data: " ++ rest) "data: " = rest := by
  rw [TrimPrefix, if_pos (hasPrefix_marker_append rest)]
  simp [String.toList]
  rfl

theorem length_longLine : longLine.length = 70000 := by
  show (List.replicate 70000 'x').length = 70000
  exact List.length_replicate _ _

set_option maxRecDepth 8000 in
theorem sampleUnmarshal_longLine : sampleUnmarshal longLine = none := by
  have h1 : longLine ≠ payloadA := by
    intro h
    have := congrArg String.length h
    rw [length_longLine] at this
    revert this
    decide
  have h2 : longLine ≠ payloadTwo := by
    intro h
    have := congrArg String.length h
    rw [length_longLine] at this
    revert this
    decide
  unfold sampleUnmarshal
  rw [if_neg h1, if_neg h2]

theorem scanResponse_stops_at_long (dec : Decoder) (before after : List String) (long : String)
    (h : MaxScanTokenSize ≤ byteLen long) :
    scanResponse dec (before ++ long :: after) = scanResponse dec before := by
  rw [scanResponse_eq_emitFrom, scanResponse_eq_emitFrom]
  congr 2
  induction before with
  | nil =>
    rw [List.nil_append, scanTokens_cons_long long after h]
    rfl
  | cons b bs ih =>
    simp only [List.cons_append]
    by_cases hb : byteLen b < MaxScanTokenSize
    · rw [scanTokens_cons_fit b _ hb, scanTokens_cons_fit b _ hb, ih]
    · rw [scanTokens_cons_long b _ (Nat.not_lt.mp hb), scanTokens_cons_long b _ (Nat.not_lt.mp hb)]

set_option maxRecDepth 8000 in
/-- C9, as stated, fails: a `data: ` line of 70006 bytes whose payload does
not decode, inserted between two valid lines, makes the scanner stop with
`ErrTooLong`; the events of the valid line after it are never sent. -/
theorem scanResponse_long_malformed_line :
    HasPrefix longDataLine "data: " = true ∧
    sampleDecoder.Unmarshal (TrimPrefix longDataLine "data: ") = none ∧
    scanResponse sampleDecoder [lineA, lineTwo] = [evA, evB, evOld] ∧
    scanResponse sampleDecoder [lineA, longDataLine, lineTwo] = [evA] ∧
    scanResponse sampleDecoder [lineA, longDataLine, lineTwo]
      ≠ scanResponse sampleDecoder [lineA, lineTwo] := by
  have h1 : scanResponse sampleDecoder [lineA, lineTwo] = [evA, evB, evOld] := by decide
  have h2 : scanResponse sampleDecoder [lineA, longDataLine, lineTwo] = [evA] := by
    rw [show [lineA, longDataLine, lineTwo] = [lineA] ++ longDataLine :: [lineTwo] from rfl,
      scanResponse_stops_at_long sampleDecoder [lineA] [lineTwo] longDataLine
        (by rw [byteLen_longDataLine]; decide)]
    decide
  refine ⟨hasPrefix_marker_append longLine, ?_, h1, h2, ?_⟩
  · rw [longDataLine, trimPrefix_marker_append]
    exact sampleUnmarshal_longLine
  · rw [h1, h2]
    decide

/-- C9, amended: `scanResponse` sends, in line order, the entries of every
scanned `data: ` line whose payload decodes (one event per key, the entries of
one line in the order its `range` loop visits them), the scanned lines being
those before the first line of `MaxScanTokenSize` bytes or more.  A `data: `
line of fewer bytes whose payload does not decode sends nothing, and inserting
it anywhere among other lines changes neither the events sent nor the result
aggregated from them. -/
theorem scanResponse_skips_malformed {F : Type} (fl : Float64Model F) (dec : Decoder)
    (before after : List String) (bad : String) (duration : Int) (dimension : Dimension)
    (hp : HasPrefix bad "data: " = true)
    (hbad : dec.Unmarshal (TrimPrefix (dropCR bad) "data: ") = none)
    (hfit : byteLen bad < MaxScanTokenSize) :
    (∀ body : List String, ∃ chunks : List (List Post),
        scanResponse dec body = chunks.flatten ∧
        List.Forall₂ (fun chunk m => List.Perm chunk (List.map mkPost m) ∧
          (chunk.map Post.Typ).Nodup) chunks (decodedMaps dec (scanTokens body))) ∧
    scanResponse dec [bad] = [] ∧
    scanResponse dec (before ++ bad :: after) = scanResponse dec (before ++ after) ∧
    AggregateData fl (ReadStream dec (fun _ => some (before ++ bad :: after))) duration dimension
      = AggregateData fl (ReadStream dec (fun _ => some (before ++ after))) duration
          dimension := by
  have hins : scanResponse dec (before ++ bad :: after) = scanResponse dec (before ++ after) := by
    rw [scanResponse_eq_emitFrom, scanResponse_eq_emitFrom,
      decodedMaps_scan_insert_bad dec before after bad hp hbad hfit]
  refine ⟨?_, ?_, hins, ?_⟩
  · intro body
    rw [scanResponse_eq_emitFrom]
    apply emitFrom_chunks
    intro m hm
    obtain ⟨data, hd⟩ := mem_decodedMaps dec _ m hm
    exact dec.keys_nodup data m hd
  · have h := decodedMaps_scan_insert_bad dec [] [] bad hp hbad hfit
    rw [scanResponse_eq_emitFrom]
    simp only [List.nil_append] at h
    rw [h]
    rfl
  · simp only [AggregateData, ReadStream, hins]

set_option maxRecDepth 8000 in
theorem scanResponse_skips_malformed_witness :
    HasPrefix lineBad "data: " = true ∧
    sampleDecoder.Unmarshal (TrimPrefix (dropCR lineBad) "data: ") = none ∧
    byteLen lineBad < MaxScanTokenSize ∧
    scanResponse sampleDecoder [lineA, lineBad, lineTwo] = [evA, evB, evOld] ∧
    scanResponse sampleDecoder [lineA, lineBad, lineTwo]
      = scanResponse sampleDecoder [lineA, lineTwo] ∧
    AggregateData exactFloat
        (ReadStream sampleDecoder (fun _ => some [lineA, lineBad, lineTwo])) 5000000000
        types.Likes
      = AggregateData exactFloat
          (ReadStream sampleDecoder (fun _ => some [lineA, lineTwo])) 5000000000 types.Likes :=
  ⟨by decide, by decide, by decide, by decide,
   (scanResponse_skips_malformed exactFloat sampleDecoder [lineA] [lineTwo] lineBad 5000000000
      types.Likes (by decide) (by decide) (by decide)).2.2.1,
   (scanResponse_skips_malformed exactFloat sampleDecoder [lineA] [lineTwo] lineBad 5000000000
      types.Likes (by decide) (by decide) (by decide)).2.2.2⟩

set_option maxRecDepth 8000 in
/-- C10, as stated, fails: a line of 70000 letters does not begin with
`data: `, yet inserting it between two valid lines makes the scanner stop with
`ErrTooLong`, and the events of the valid line after it are never sent. -/
theorem scanResponse_long_other_line :
    HasPrefix longLine "data: " = false ∧
    scanResponse sampleDecoder [lineA, lineTwo] = [evA, evB, evOld] ∧
    scanResponse sampleDecoder [lineA, longLine, lineTwo] = [evA] ∧
    scanResponse sampleDecoder [lineA, longLine, lineTwo]
      ≠ scanResponse sampleDecoder [lineA, lineTwo] := by
  have h1 : scanResponse sampleDecoder [lineA, lineTwo] = [evA, evB, evOld] := by decide
  have h2 : scanResponse sampleDecoder [lineA, longLine, lineTwo] = [evA] := by
    rw [show [lineA, longLine, lineTwo] = [lineA] ++ longLine :: [lineTwo] from rfl,
      scanResponse_stops_at_long sampleDecoder [lineA] [lineTwo] longLine
        (by rw [byteLen_longLine]; decide)]
    decide
  refine ⟨hasPrefix_longLine, h1, h2, ?_⟩
  rw [h1, h2]
  decide

/-- C10, amended: the events sent by `scanResponse` are unchanged when lines
that do not begin with the six characters `data: ` and have fewer than
`MaxScanTokenSize` bytes are removed from or inserted into the body: two
bodies that agree once such lines are left out send the same events, leaving
all of them out changes nothing, and a line without the marker sends no event
by itself. -/
theorem scanResponse_ignores_other_lines (dec : Decoder) (lines lines' : List String)
    (h : lines'.filter (fun l => !ignoredLine l) = lines.filter (fun l => !ignoredLine l)) :
    scanResponse dec lines' = scanResponse dec lines ∧
    scanResponse dec (lines.filter (fun l => !ignoredLine l)) = scanResponse dec lines ∧
    ∀ l : String, HasPrefix l "data: " = false → scanResponse dec [l] = [] := by
  refine ⟨?_, ?_, ?_⟩
  · rw [scanResponse_eq_emitFrom, scanResponse_eq_emitFrom, ← decodedMaps_scan_filter dec lines',
      ← decodedMaps_scan_filter dec lines, h]
  · rw [scanResponse_eq_emitFrom, scanResponse_eq_emitFrom, decodedMaps_scan_filter]
  · intro l hl
    rw [scanResponse_eq_emitFrom]
    by_cases hb : byteLen l < MaxScanTokenSize
    · rw [scanTokens_cons_fit l [] hb,
        decodedMaps_cons_other dec _ _ ((hasPrefix_dropCR l).trans hl)]
      rfl
    · rw [scanTokens_cons_long l [] (Nat.not_lt.mp hb)]
      rfl

set_option maxRecDepth 8000 in
theorem scanResponse_ignores_other_lines_witness :
    scanResponse sampleDecoder
        ["", "event: post", lineA, "id: 7\r", "data:" ++ payloadA, ": keep-alive",
          " data: " ++ payloadA, "Data: " ++ payloadA, lineTwo ++ "\r", payloadTwo, ""]
      = scanResponse sampleDecoder [lineA, lineTwo ++ "\r"] ∧
    scanResponse sampleDecoder [lineA, lineTwo ++ "\r"] = [evA, evB, evOld] ∧
    scanResponse sampleDecoder ["data:" ++ payloadA] = [] :=
  ⟨(scanResponse_ignores_other_lines sampleDecoder [lineA, lineTwo ++ "\r"]
      ["", "event: post", lineA, "id: 7\r", "data:" ++ payloadA, ": keep-alive",
        " data: " ++ payloadA, "Data: " ++ payloadA, lineTwo ++ "\r", payloadTwo, ""]
      (by decide)).1,
   by decide,
   (scanResponse_ignores_other_lines sampleDecoder [lineA, lineTwo ++ "\r"]
      ["", "event: post", lineA, "id: 7\r", "data:" ++ payloadA, ": keep-alive",
        " data: " ++ payloadA, "Data: " ++ payloadA, lineTwo ++ "\r", payloadTwo, ""]
      (by decide)).2.2
      ("data:" ++ payloadA) (by decide)⟩

/-! ## The handler: dimension validation -/

theorem isValidDimension_iff (d : Dimension) :
    types.IsValidDimension d = true ↔
      d = "likes" ∨ d = "comments" ∨ d = "favorites" ∨ d = "retweets" := by
  simp [types.IsValidDimension, types.Likes, types.Comments, types.Favorites, types.Retweets]

theorem parseDimension_of_invalid (dimensionStr : String)
    (h : types.IsValidDimension dimensionStr = false) :
    parseDimension dimensionStr
      = .error (httpError ("Invalid dimension: " ++ dimensionStr) StatusBadRequest) := by
  simp [parseDimension, h]

/-- C11: `IsValidDimension` is true exactly for `likes`, `comments`,
`favorites` and `retweets`; for any other `dimension` parameter (the empty
string included) and any `duration` parameter, `AnalysisHandler` answers with
status 400 and makes no call of `AggregateData`. -/
theorem analysisHandler_rejects_invalid_dimension {F : Type} (env : HandlerEnv F)
    (durationStr dimensionStr : String)
    (h : dimensionStr ≠ "likes" ∧ dimensionStr ≠ "comments" ∧
      dimensionStr ≠ "favorites" ∧ dimensionStr ≠ "retweets") :
    (∀ d : Dimension, types.IsValidDimension d = true ↔
      d = "likes" ∨ d = "comments" ∨ d = "favorites" ∨ d = "retweets") ∧
    (AnalysisHandler env durationStr dimensionStr).response.status = 400 ∧
    (AnalysisHandler env durationStr dimensionStr).aggregateCalls = [] := by
  have hinv : types.IsValidDimension dimensionStr = false := by
    cases hv : types.IsValidDimension dimensionStr with
    | false => rfl
    | true =>
      rcases (isValidDimension_iff dimensionStr).mp hv with h1 | h1 | h1 | h1
      · exact absurd h1 h.1
      · exact absurd h1 h.2.1
      · exact absurd h1 h.2.2.1
      · exact absurd h1 h.2.2.2
  refine ⟨isValidDimension_iff, ?_⟩
  unfold AnalysisHandler
  cases hd : parseDuration env durationStr with
  | error resp =>
    have hresp : resp.status = 400 := by
      unfold parseDuration at hd
      cases hp : env.ParseDuration durationStr with
      | error err =>
        rw [hp] at hd
        injection hd with hd
        rw [← hd]; rfl
      | ok v => rw [hp] at hd; cases hd
    exact ⟨hresp, rfl⟩
  | ok duration =>
    rw [parseDimension_of_invalid dimensionStr hinv]
    exact ⟨rfl, rfl⟩

theorem analysisHandler_rejects_invalid_dimension_witness :
    (AnalysisHandler sampleEnv "5s" "invalid").response.status = 400 ∧
    (AnalysisHandler sampleEnv "5s" "invalid").aggregateCalls = [] ∧
    (AnalysisHandler sampleEnv "" "").response.status = 400 ∧
    (AnalysisHandler sampleEnv "" "").aggregateCalls = [] ∧
    (AnalysisHandler sampleEnv "5s" "likes").aggregateCalls = [(5000000000, "likes")] :=
  ⟨(analysisHandler_rejects_invalid_dimension sampleEnv "5s" "invalid"
      (by decide)).2.1,
   (analysisHandler_rejects_invalid_dimension sampleEnv "5s" "invalid"
      (by decide)).2.2,
   (analysisHandler_rejects_invalid_dimension sampleEnv "" "" (by decide)).2.1,
   (analysisHandler_rejects_invalid_dimension sampleEnv "" "" (by decide)).2.2,
   by decide⟩

/-! ## The reader goroutine: closing the channel -/

theorem scanLoopOps_eq (dec : Decoder) (lines : List String) (k : Nat) :
    scanLoopOps dec k lines
      = (emitFrom dec k (decodedMaps dec lines)).map ChanOp.send := by
  induction lines generalizing k with
  | nil => rfl
  | cons l ls ih =>
    cases hp : HasPrefix l "data: " with
    | false =>
      rw [decodedMaps_cons_other dec l ls hp]
      simp [scanLoopOps, hp, ih]
    | true =>
      cases hd : dec.Unmarshal (TrimPrefix l "data: ") with
      | none =>
        rw [decodedMaps_cons_bad dec l ls hp hd]
        simp [scanLoopOps, hp, processDataLineOps, hd, ih]
      | some m =>
        rw [decodedMaps_cons_ok dec l ls m hp hd]
        simp [scanLoopOps, hp, processDataLineOps, hd, ih, emitFrom, Function.comp_def]

theorem closeCount_sends (evs : List Post) (tail : List ChanOp) :
    closeCount (evs.map ChanOp.send ++ tail) = closeCount tail := by
  induction evs with
  | nil => rfl
  | cons e es ih =>
    simp only [closeCount, List.map_cons, List.cons_append] at ih ⊢
    rw [List.count_cons_of_ne (by simp), ih]

theorem sentAfterClose_sends (evs : List Post) (tail : List ChanOp) :
    sentAfterClose (evs.map ChanOp.send ++ tail) = sentAfterClose tail := by
  induction evs with
  | nil => rfl
  | cons e es ih =>
    simp only [sentAfterClose, List.map_cons, List.cons_append] at ih ⊢
    rw [List.dropWhile_cons_of_pos (by simp), ih]

theorem sentEvents_sends (evs : List Post) (tail : List ChanOp) :
    sentEvents (evs.map ChanOp.send ++ tail) = evs ++ sentEvents tail := by
  induction evs with
  | nil => rfl
  | cons e es ih =>
    simp only [sentEvents, List.map_cons, List.cons_append] at ih ⊢
    simp [List.filterMap_cons, ih]

theorem readStreamOps_shape (dec : Decoder) (outcome : ConnectOutcome) (duration : Int) :
    ∃ tail : List ChanOp, (tail = [ChanOp.close] ∨ tail = [ChanOp.logScanError, ChanOp.close]) ∧
      ReadStreamOps dec outcome
        = (ReadStream dec (fun _ => outcome.scanned) duration).map ChanOp.send ++ tail := by
  cases outcome with
  | requestFailed => exact ⟨[ChanOp.close], Or.inl rfl, rfl⟩
  | doFailed => exact ⟨[ChanOp.close], Or.inl rfl, rfl⟩
  | response lines stop =>
    have hev : ReadStream dec (fun _ => (ConnectOutcome.response lines stop).scanned) duration
        = emitFrom dec 0 (decodedMaps dec (scanTokens lines)) := by
      simp [ReadStream, ConnectOutcome.scanned, scanResponse_eq_emitFrom]
    rw [hev]
    by_cases hs : stop = ScanEnd.bodyEnd ∧ scanTooLong lines = false
    · refine ⟨[ChanOp.close], Or.inl rfl, ?_⟩
      simp only [ReadStreamOps, scanResponseOps, scanLoopOps_eq, if_pos hs, List.append_nil]
    · refine ⟨[ChanOp.logScanError, ChanOp.close], Or.inr rfl, ?_⟩
      simp only [ReadStreamOps, scanResponseOps, scanLoopOps_eq, if_neg hs, List.append_assoc,
        List.singleton_append]

/-- C12: on every execution path of the goroutine started by `ReadStream`
(the request cannot be built, the connection fails, the body is scanned to its
end, the scan stops on a read error or on the deadline) the channel is closed
exactly once, the close is the last step, no event is sent after it, and the
events sent before it are those `ReadStream` delivers. -/
theorem readStream_closes_once (dec : Decoder) (outcome : ConnectOutcome) (duration : Int) :
    closeCount (ReadStreamOps dec outcome) = 1 ∧
    sentAfterClose (ReadStreamOps dec outcome) = [] ∧
    (ReadStreamOps dec outcome).getLast? = some ChanOp.close ∧
    sentEvents (ReadStreamOps dec outcome)
      = ReadStream dec (fun _ => outcome.scanned) duration := by
  obtain ⟨tail, ht, hops⟩ := readStreamOps_shape dec outcome duration
  rw [hops, closeCount_sends, sentAfterClose_sends, sentEvents_sends]
  rcases ht with rfl | rfl
  · refine ⟨by decide, by decide, ?_, ?_⟩
    · simp
    · simp [sentEvents]
  · refine ⟨by decide, by decide, ?_, ?_⟩
    · simp
    · simp [sentEvents]

set_option maxRecDepth 8000 in
theorem readStreamOps_example :
    ReadStreamOps sampleDecoder (.response [lineA, lineBad, lineTwo] .deadline)
      = [.send evA, .send evB, .send evOld, .logScanError, .close] ∧
    ReadStreamOps sampleDecoder .doFailed = [.close] := by
  decide

/-! ## The aggregator: order of arrival -/

theorem dimValues_perm (dimension : Dimension) (posts posts' : List Post)
    (h : List.Perm posts' posts) :
    List.Perm (dimValues dimension posts') (dimValues dimension posts) :=
  h.map _

theorem finish_avg_congr {F : Type} (fl : Float64Model F) (s s' : AggState)
    (hn : s'.TotalPosts = s.TotalPosts) (hv : s'.totalValue = s.totalValue) :
    (finish fl s').AvgValue = (finish fl s).AvgValue := by
  simp [finish, hn, hv]

theorem drain_perm (dimension : Dimension) (posts posts' : List Post)
    (h : List.Perm posts' posts) :
    (drain dimension posts').TotalPosts = (drain dimension posts).TotalPosts ∧
    (drain dimension posts').totalValue = (drain dimension posts).totalValue := by
  constructor
  · rw [drain_totalPosts, drain_totalPosts, h.length_eq]
  · rw [drain_totalValue, drain_totalValue, (dimValues_perm dimension posts posts' h).sum_eq]

theorem emitFrom_perm (dec : Decoder) (maps : List EventMap) (k : Nat) :
    List.Perm (emitFrom dec k maps) (maps.flatten.map mkPost) := by
  induction maps generalizing k with
  | nil => exact List.Perm.refl _
  | cons m ms ih =>
    simp only [emitFrom, List.flatten_cons, List.map_append]
    exact List.Perm.append ((dec.rangeOrder_perm k m).map mkPost) (ih (k + 1))

theorem scanResponse_perm_of_unmarshal_eq (dec dec' : Decoder)
    (h : dec'.Unmarshal = dec.Unmarshal) (lines : List String) :
    List.Perm (scanResponse dec' lines) (scanResponse dec lines) := by
  rw [scanResponse_eq_emitFrom, scanResponse_eq_emitFrom]
  have hm : decodedMaps dec' (scanTokens lines) = decodedMaps dec (scanTokens lines) := by
    simp [decodedMaps, h]
  rw [hm]
  exact (emitFrom_perm dec' _ 0).trans (emitFrom_perm dec _ 0).symm

/-- C13: for every event sequence, every rearrangement of it and every
dimension, `AggregateData` publishes the same `TotalPosts` and the same
`AvgValue`.  In particular two runs of the reader over the same lines that
differ only in the order their `range` loops visit the keys of a line lead to
the same `TotalPosts` and `AvgValue`. -/
theorem aggregateData_perm {F : Type} (fl : Float64Model F)
    (ReadStream' ReadStream0 : Int → List Post) (duration : Int) (dimension : Dimension)
    (h : List.Perm (ReadStream' duration) (ReadStream0 duration)) :
    ((AggregateData fl ReadStream' duration dimension).TotalPosts
        = (AggregateData fl ReadStream0 duration dimension).TotalPosts ∧
      (AggregateData fl ReadStream' duration dimension).AvgValue
        = (AggregateData fl ReadStream0 duration dimension).AvgValue) ∧
    ∀ (dec dec' : Decoder) (connect : Int → Option (List String)),
      dec'.Unmarshal = dec.Unmarshal →
      (AggregateData fl (ReadStream dec' connect) duration dimension).TotalPosts
        = (AggregateData fl (ReadStream dec connect) duration dimension).TotalPosts ∧
      (AggregateData fl (ReadStream dec' connect) duration dimension).AvgValue
        = (AggregateData fl (ReadStream dec connect) duration dimension).AvgValue := by
  have key : ∀ posts posts' : List Post, List.Perm posts' posts →
      (finish fl (drain dimension posts')).TotalPosts
        = (finish fl (drain dimension posts)).TotalPosts ∧
      (finish fl (drain dimension posts')).AvgValue
        = (finish fl (drain dimension posts)).AvgValue := by
    intro posts posts' hp
    obtain ⟨hn, hv⟩ := drain_perm dimension posts posts' hp
    exact ⟨hn, finish_avg_congr fl _ _ hn hv⟩
  refine ⟨key _ _ h, ?_⟩
  intro dec dec' connect hu
  apply key
  unfold ReadStream
  cases connect duration with
  | none => exact List.Perm.refl _
  | some lines => exact scanResponse_perm_of_unmarshal_eq dec dec' hu lines

theorem aggregateData_perm_witness :
    (AggregateData exactFloat (fun _ => [evOld, evA, evB]) 5000000000 types.Likes).TotalPosts
      = (AggregateData exactFloat (fun _ => [evA, evB, evOld]) 5000000000
          types.Likes).TotalPosts ∧
    (AggregateData exactFloat (fun _ => [evOld, evA, evB]) 5000000000 types.Likes).AvgValue
      = (AggregateData exactFloat (fun _ => [evA, evB, evOld]) 5000000000
          types.Likes).AvgValue ∧
    (AggregateData exactFloat (fun _ => [evOld, evA, evB]) 5000000000 types.Likes).MinTimestamp
      ≠ (AggregateData exactFloat (fun _ => [evA, evB, evOld]) 5000000000
          types.Likes).MinTimestamp :=
  ⟨(aggregateData_perm exactFloat (fun _ => [evOld, evA, evB]) (fun _ => [evA, evB, evOld])
      5000000000 types.Likes (by decide)).1.1,
   (aggregateData_perm exactFloat (fun _ => [evOld, evA, evB]) (fun _ => [evA, evB, evOld])
      5000000000 types.Likes (by decide)).1.2,
   by decide⟩

/-! ## The aggregator: the average in `float64` -/

theorem floor_le_roundHalfEven (x : ℚ) : ⌊x⌋ ≤ roundHalfEven x := by
  unfold roundHalfEven
  split_ifs <;> omega

theorem roundHalfEven_le_floor_succ (x : ℚ) : roundHalfEven x ≤ ⌊x⌋ + 1 := by
  unfold roundHalfEven
  split_ifs <;> omega

theorem roundHalfEven_intCast (j : Int) : roundHalfEven (j : ℚ) = j := by
  unfold roundHalfEven
  simp

theorem le_roundHalfEven (x : ℚ) (j : Int) (h : (j : ℚ) ≤ x) : j ≤ roundHalfEven x :=
  le_trans (Int.le_floor.mpr h) (floor_le_roundHalfEven x)

theorem roundHalfEven_le (x : ℚ) (j : Int) (h : x ≤ (j : ℚ)) : roundHalfEven x ≤ j := by
  rcases eq_or_lt_of_le h with heq | hlt
  · rw [heq, roundHalfEven_intCast]
  · have : ⌊x⌋ < j := Int.floor_lt.mpr hlt
    have := roundHalfEven_le_floor_succ x
    omega


theorem binExp_cases (e : Int) :
    (∃ n : Nat, e = 52 - n) ∨ (∃ n : Nat, e = 53 + n) := by
  rcases le_or_lt e 52 with h | h
  · exact Or.inl ⟨(52 - e).toNat, by omega⟩
  · exact Or.inr ⟨(e - 53).toNat, by omega⟩

theorem two_zpow_log_le_abs (x : ℚ) (hx : x ≠ 0) : (2 : ℚ) ^ Int.log 2 |x| ≤ |x| := by
  have h := Int.zpow_log_le_self (b := 2) (r := |x|) (by norm_num) (abs_pos.mpr hx)
  simpa using h

theorem roundFloat64_low_exp (x : ℚ) (n : Nat) (hx : x ≠ 0) (he : Int.log 2 |x| = 52 - n) :
    roundFloat64 x = (roundHalfEven (x * 2 ^ n) : ℚ) / 2 ^ n := by
  have hu : (2 : ℚ) ^ (Int.log 2 |x| - 52) = ((2 : ℚ) ^ n)⁻¹ := by
    rw [he, show (52 : Int) - n - 52 = -(n : Int) by ring, zpow_neg, zpow_natCast]
  rw [roundFloat64, if_neg hx, hu, div_inv_eq_mul, div_eq_mul_inv]

theorem roundFloat64_high_exp (x : ℚ) (n : Nat) (hx : x ≠ 0) (he : Int.log 2 |x| = 53 + n) :
    roundFloat64 x = (roundHalfEven (x / (2 * 2 ^ n)) : ℚ) * (2 * 2 ^ n) := by
  have hu : (2 : ℚ) ^ (Int.log 2 |x| - 52) = 2 * 2 ^ n := by
    rw [he, show (53 : Int) + n - 52 = ((n + 1 : Nat) : Int) by push_cast; ring, zpow_natCast,
      pow_succ, mul_comm]
  rw [roundFloat64, if_neg hx, hu]

theorem abs_ge_high_exp (x : ℚ) (n : Nat) (hx : x ≠ 0) (he : Int.log 2 |x| = 53 + n) :
    (9007199254740992 : ℚ) * 2 ^ n ≤ |x| := by
  have h := two_zpow_log_le_abs x hx
  rw [he, show (53 : Int) + n = ((53 + n : Nat) : Int) by push_cast; ring, zpow_natCast,
    pow_add] at h
  norm_num at h
  exact h

/-- An integer of magnitude at most `2^53` below `x` is below the rounded `x`. -/
theorem le_roundFloat64 (k : Int) (x : ℚ) (hk : |k| ≤ 9007199254740992) (h : (k : ℚ) ≤ x) :
    (k : ℚ) ≤ roundFloat64 x := by
  by_cases hx : x = 0
  · rw [roundFloat64, if_pos hx]; rw [hx] at h; exact h
  have hkq : (-9007199254740992 : ℚ) ≤ k ∧ (k : ℚ) ≤ 9007199254740992 := by
    have := abs_le.mp hk
    exact ⟨by exact_mod_cast this.1, by exact_mod_cast this.2⟩
  rcases binExp_cases (Int.log 2 |x|) with ⟨n, he⟩ | ⟨n, he⟩
  · rw [roundFloat64_low_exp x n hx he]
    have hP : (0 : ℚ) < 2 ^ n := by positivity
    have hj : ((k * 2 ^ n : Int) : ℚ) ≤ x * 2 ^ n := by
      push_cast
      exact mul_le_mul_of_nonneg_right h hP.le
    have := le_roundHalfEven _ _ hj
    have hq : ((k * 2 ^ n : Int) : ℚ) ≤ (roundHalfEven (x * 2 ^ n) : ℚ) := by exact_mod_cast this
    rw [le_div_iff₀ hP]
    push_cast at hq
    exact hq
  · rw [roundFloat64_high_exp x n hx he]
    have hP : (1 : ℚ) ≤ 2 ^ n := one_le_pow₀ (by norm_num)
    have hP0 : (0 : ℚ) < 2 * 2 ^ n := by positivity
    have habs := abs_ge_high_exp x n hx he
    rcases lt_or_gt_of_ne hx with hneg | hpos
    · rw [abs_of_neg hneg] at habs
      have hj : (((-4503599627370496 : Int)) : ℚ) ≤ x / (2 * 2 ^ n) := by
        rw [le_div_iff₀ hP0]
        push_cast
        nlinarith
      have := le_roundHalfEven _ _ hj
      have hq : ((-4503599627370496 : Int) : ℚ) ≤ (roundHalfEven (x / (2 * 2 ^ n)) : ℚ) := by
        exact_mod_cast this
      push_cast at hq
      nlinarith
    · rw [abs_of_pos hpos] at habs
      have hj : (((4503599627370496 : Int)) : ℚ) ≤ x / (2 * 2 ^ n) := by
        rw [le_div_iff₀ hP0]
        push_cast
        nlinarith
      have := le_roundHalfEven _ _ hj
      have hq : ((4503599627370496 : Int) : ℚ) ≤ (roundHalfEven (x / (2 * 2 ^ n)) : ℚ) := by
        exact_mod_cast this
      push_cast at hq
      nlinarith

/-- An integer of magnitude at most `2^53` above `x` is above the rounded `x`. -/
theorem roundFloat64_le (k : Int) (x : ℚ) (hk : |k| ≤ 9007199254740992) (h : x ≤ (k : ℚ)) :
    roundFloat64 x ≤ (k : ℚ) := by
  by_cases hx : x = 0
  · rw [roundFloat64, if_pos hx]; rw [hx] at h; exact h
  have hkq : (-9007199254740992 : ℚ) ≤ k ∧ (k : ℚ) ≤ 9007199254740992 := by
    have := abs_le.mp hk
    exact ⟨by exact_mod_cast this.1, by exact_mod_cast this.2⟩
  rcases binExp_cases (Int.log 2 |x|) with ⟨n, he⟩ | ⟨n, he⟩
  · rw [roundFloat64_low_exp x n hx he]
    have hP : (0 : ℚ) < 2 ^ n := by positivity
    have hj : x * 2 ^ n ≤ ((k * 2 ^ n : Int) : ℚ) := by
      push_cast
      exact mul_le_mul_of_nonneg_right h hP.le
    have := roundHalfEven_le _ _ hj
    have hq : (roundHalfEven (x * 2 ^ n) : ℚ) ≤ ((k * 2 ^ n : Int) : ℚ) := by exact_mod_cast this
    rw [div_le_iff₀ hP]
    push_cast at hq
    exact hq
  · rw [roundFloat64_high_exp x n hx he]
    have hP : (1 : ℚ) ≤ 2 ^ n := one_le_pow₀ (by norm_num)
    have hP0 : (0 : ℚ) < 2 * 2 ^ n := by positivity
    have habs := abs_ge_high_exp x n hx he
    rcases lt_or_gt_of_ne hx with hneg | hpos
    · rw [abs_of_neg hneg] at habs
      have hj : x / (2 * 2 ^ n) ≤ (((-4503599627370496 : Int)) : ℚ) := by
        rw [div_le_iff₀ hP0]
        push_cast
        nlinarith
      have := roundHalfEven_le _ _ hj
      have hq : (roundHalfEven (x / (2 * 2 ^ n)) : ℚ) ≤ ((-4503599627370496 : Int) : ℚ) := by
        exact_mod_cast this
      push_cast at hq
      nlinarith
    · rw [abs_of_pos hpos] at habs
      have hj : x / (2 * 2 ^ n) ≤ (((4503599627370496 : Int)) : ℚ) := by
        rw [div_le_iff₀ hP0]
        push_cast
        nlinarith
      have := roundHalfEven_le _ _ hj
      have hq : (roundHalfEven (x / (2 * 2 ^ n)) : ℚ) ≤ ((4503599627370496 : Int) : ℚ) := by
        exact_mod_cast this
      push_cast at hq
      nlinarith

theorem roundFloat64_intCast (k : Int) (hk : |k| ≤ 9007199254740992) :
    roundFloat64 (k : ℚ) = k :=
  le_antisymm (roundFloat64_le k k hk le_rfl) (le_roundFloat64 k k hk le_rfl)

theorem foldl_min_le (l : List Int) (a : Int) :
    l.foldl min a ≤ a ∧ ∀ x ∈ l, l.foldl min a ≤ x := by
  induction l generalizing a with
  | nil => simp
  | cons y ys ih =>
    obtain ⟨h1, h2⟩ := ih (min a y)
    refine ⟨le_trans h1 (min_le_left _ _), ?_⟩
    intro x hx
    rcases List.mem_cons.mp hx with rfl | hx
    · exact le_trans h1 (min_le_right _ _)
    · exact h2 x hx

theorem le_foldl_max (l : List Int) (a : Int) :
    a ≤ l.foldl max a ∧ ∀ x ∈ l, x ≤ l.foldl max a := by
  induction l generalizing a with
  | nil => simp
  | cons y ys ih =>
    obtain ⟨h1, h2⟩ := ih (max a y)
    refine ⟨le_trans (le_max_left _ _) h1, ?_⟩
    intro x hx
    rcases List.mem_cons.mp hx with rfl | hx
    · exact le_trans (le_max_right _ _) h1
    · exact h2 x hx

theorem length_mul_le_sum (l : List Int) (lo : Int) (h : ∀ x ∈ l, lo ≤ x) :
    lo * l.length ≤ l.sum := by
  induction l with
  | nil => simp
  | cons y ys ih =>
    have h1 := h y (List.mem_cons_self _ _)
    have h2 := ih (fun x hx => h x (List.mem_cons_of_mem _ hx))
    simp only [List.length_cons, List.sum_cons]
    push_cast
    linarith

theorem sum_le_length_mul (l : List Int) (hi : Int) (h : ∀ x ∈ l, x ≤ hi) :
    l.sum ≤ hi * l.length := by
  induction l with
  | nil => simp
  | cons y ys ih =>
    have h1 := h y (List.mem_cons_self _ _)
    have h2 := ih (fun x hx => h x (List.mem_cons_of_mem _ hx))
    simp only [List.length_cons, List.sum_cons]
    push_cast
    linarith

theorem le_foldl_min (l : List Int) (a c : Int) (ha : c ≤ a) (h : ∀ x ∈ l, c ≤ x) :
    c ≤ l.foldl min a := by
  induction l generalizing a with
  | nil => simpa using ha
  | cons y ys ih =>
    exact ih (min a y) (le_min ha (h y (List.mem_cons_self _ _)))
      (fun x hx => h x (List.mem_cons_of_mem _ hx))

theorem foldl_max_le (l : List Int) (a c : Int) (ha : a ≤ c) (h : ∀ x ∈ l, x ≤ c) :
    l.foldl max a ≤ c := by
  induction l generalizing a with
  | nil => simpa using ha
  | cons y ys ih =>
    exact ih (max a y) (max_le ha (h y (List.mem_cons_self _ _)))
      (fun x hx => h x (List.mem_cons_of_mem _ hx))

theorem roundFloat64_odd53 : roundFloat64 9007199254740993 = 9007199254740992 := by
  have hr : (0 : ℚ) < |(9007199254740993 : ℚ)| := by norm_num
  have h1 : (53 : Int) ≤ Int.log 2 |(9007199254740993 : ℚ)| :=
    (Int.zpow_le_iff_le_log (by norm_num) hr).mp (by norm_num)
  have h2 : Int.log 2 |(9007199254740993 : ℚ)| < 54 :=
    (Int.lt_zpow_iff_log_lt (by norm_num) hr).mp (by norm_num)
  have he : Int.log 2 |(9007199254740993 : ℚ)| = 53 + (0 : Nat) := by
    simp only [Nat.cast_zero, add_zero]; omega
  rw [roundFloat64_high_exp _ 0 (by norm_num) he]
  have hf : ⌊(9007199254740993 : ℚ) / (2 * 2 ^ 0)⌋ = 4503599627370496 := by
    rw [Int.floor_eq_iff]; norm_num
  have hh : roundHalfEven ((9007199254740993 : ℚ) / (2 * 2 ^ 0)) = 4503599627370496 := by
    unfold roundHalfEven
    rw [hf]
    norm_num
  rw [hh]
  norm_num

theorem avgValue_float64 (ReadStream0 : Int → List Post) (duration : Int)
    (dimension : Dimension) (hne : ReadStream0 duration ≠ [])
    (hs : |(dimValues dimension (ReadStream0 duration)).sum| ≤ 9007199254740992)
    (hn : (ReadStream0 duration).length ≤ 9007199254740992) :
    (AggregateData float64 ReadStream0 duration dimension).AvgValue
      = roundFloat64 (((dimValues dimension (ReadStream0 duration)).sum : ℚ)
          / ((ReadStream0 duration).length : ℚ)) := by
  have hlen : (0 : Int) < (ReadStream0 duration).length := by
    have := List.length_pos.mpr hne
    exact_mod_cast this
  have hsr := abs_le.mp hs
  simp only [AggregateData, finish, drain_totalPosts, drain_totalValue, hlen, if_true]
  rw [wrapInt64_of_inRange _ (by omega) (by omega)]
  have hnq : |((ReadStream0 duration).length : Int)| ≤ 9007199254740992 := by
    rw [abs_of_pos hlen]; exact_mod_cast hn
  show roundFloat64 (roundFloat64 _ / roundFloat64 _) = _
  rw [roundFloat64_intCast _ hs, roundFloat64_intCast _ hnq]
  norm_cast

/-- C14, as stated, fails: one event with `likes = 2^53 + 1` does not
overflow the running sum, yet the published `AvgValue` is `2^53`: below the
smallest value among the events, and different from the value every event
has. -/
theorem aggregateData_avg_below_smallest :
    noOverflow types.Likes [evOdd53] ∧
    (∀ q ∈ [evOdd53], q.Data.GetValue types.Likes = 9007199254740993) ∧
    smallestValue types.Likes evOdd53 [] = 9007199254740993 ∧
    (AggregateData float64 (fun _ => [evOdd53]) 5000000000 types.Likes).AvgValue
      = 9007199254740992 ∧
    (AggregateData float64 (fun _ => [evOdd53]) 5000000000 types.Likes).AvgValue
      < ((smallestValue types.Likes evOdd53 [] : Int) : ℚ) := by
  have hv : (AggregateData float64 (fun _ => [evOdd53]) 5000000000 types.Likes).AvgValue
      = 9007199254740992 := by
    simp only [AggregateData, finish, drain_totalPosts, drain_totalValue]
    rw [show (dimValues types.Likes [evOdd53]).sum = 9007199254740993 from by decide,
      show wrapInt64 9007199254740993 = 9007199254740993 from by decide]
    simp only [float64, List.length_singleton, Nat.cast_one, zero_lt_one, if_true]
    rw [roundFloat64_intCast 1 (by norm_num)]
    norm_num
    rw [roundFloat64_odd53]
    exact roundFloat64_intCast 9007199254740992 (by norm_num)
  have hsm : smallestValue types.Likes evOdd53 [] = 9007199254740993 := by decide
  refine ⟨by unfold noOverflow; decide, by decide, hsm, hv, ?_⟩
  rw [hv, hsm]
  norm_num

/-- C14, amended: for every non-empty event sequence and every dimension, when
the number of events, every value of the dimension and the exact sum of these
values are at most `2^53` in absolute value, the published `AvgValue` lies
between the smallest and the largest value of the dimension among the events,
and equals `v` when every event has the value `v`. -/
theorem aggregateData_avg_between (ReadStream0 : Int → List Post) (duration : Int)
    (dimension : Dimension) (p : Post) (ps : List Post)
    (h : ReadStream0 duration = p :: ps)
    (hn : (p :: ps).length ≤ 9007199254740992)
    (hv : ∀ q ∈ p :: ps, |q.Data.GetValue dimension| ≤ 9007199254740992)
    (hs : |(dimValues dimension (p :: ps)).sum| ≤ 9007199254740992) :
    ((smallestValue dimension p ps : Int) : ℚ)
      ≤ (AggregateData float64 ReadStream0 duration dimension).AvgValue ∧
    (AggregateData float64 ReadStream0 duration dimension).AvgValue
      ≤ ((largestValue dimension p ps : Int) : ℚ) ∧
    ∀ v : Int, (∀ q ∈ p :: ps, q.Data.GetValue dimension = v) →
      (AggregateData float64 ReadStream0 duration dimension).AvgValue = (v : ℚ) := by
  have hne : ReadStream0 duration ≠ [] := by rw [h]; simp
  rw [avgValue_float64 ReadStream0 duration dimension hne (by rw [h]; exact hs)
    (by rw [h]; exact hn), h]
  have hnq : (0 : ℚ) < ((p :: ps).length : ℚ) := by
    have : 0 < (p :: ps).length := by simp
    exact_mod_cast this
  have hlen : (dimValues dimension (p :: ps)).length = (p :: ps).length := by
    simp [dimValues]
  have hmem : ∀ x ∈ dimValues dimension (p :: ps),
      x = p.Data.GetValue dimension ∨ x ∈ dimValues dimension ps := by
    intro x hx
    simpa [dimValues] using hx
  have hvx : ∀ x ∈ dimValues dimension (p :: ps), |x| ≤ 9007199254740992 := by
    intro x hx
    obtain ⟨q, hq, rfl⟩ := List.mem_map.mp hx
    exact hv q hq
  have hp := hvx (p.Data.GetValue dimension) (by simp [dimValues])
  have hps : ∀ x ∈ dimValues dimension ps, |x| ≤ 9007199254740992 :=
    fun x hx => hvx x (by simp only [dimValues, List.map_cons] at hx ⊢; exact
      List.mem_cons_of_mem _ hx)
  have hsmall : |smallestValue dimension p ps| ≤ 9007199254740992 := by
    rw [abs_le]
    exact ⟨le_foldl_min _ _ _ (abs_le.mp hp).1 (fun x hx => (abs_le.mp (hps x hx)).1),
      le_trans (foldl_min_le _ _).1 (abs_le.mp hp).2⟩
  have hlarge : |largestValue dimension p ps| ≤ 9007199254740992 := by
    rw [abs_le]
    exact ⟨le_trans (abs_le.mp hp).1 (le_foldl_max _ _).1,
      foldl_max_le _ _ _ (abs_le.mp hp).2 (fun x hx => (abs_le.mp (hps x hx)).2)⟩
  refine ⟨?_, ?_, ?_⟩
  · apply le_roundFloat64 _ _ hsmall
    rw [le_div_iff₀ hnq]
    have hb : ∀ x ∈ dimValues dimension (p :: ps), smallestValue dimension p ps ≤ x := by
      intro x hx
      rcases hmem x hx with rfl | hx
      · exact (foldl_min_le _ _).1
      · exact (foldl_min_le _ _).2 x hx
    have := length_mul_le_sum _ _ hb
    rw [hlen] at this
    exact_mod_cast this
  · apply roundFloat64_le _ _ hlarge
    rw [div_le_iff₀ hnq]
    have hb : ∀ x ∈ dimValues dimension (p :: ps), x ≤ largestValue dimension p ps := by
      intro x hx
      rcases hmem x hx with rfl | hx
      · exact (le_foldl_max _ _).1
      · exact (le_foldl_max _ _).2 x hx
    have := sum_le_length_mul _ _ hb
    rw [hlen] at this
    exact_mod_cast this
  · intro v hveq
    have hvb : |v| ≤ 9007199254740992 := by
      rw [← hveq p (List.mem_cons_self _ _)]; exact hp
    have hlo : ∀ x ∈ dimValues dimension (p :: ps), v ≤ x := by
      intro x hx
      obtain ⟨q, hq, rfl⟩ := List.mem_map.mp hx
      exact le_of_eq (hveq q hq).symm
    have hhi : ∀ x ∈ dimValues dimension (p :: ps), x ≤ v := by
      intro x hx
      obtain ⟨q, hq, rfl⟩ := List.mem_map.mp hx
      exact le_of_eq (hveq q hq)
    have h1 := length_mul_le_sum _ _ hlo
    have h2 := sum_le_length_mul _ _ hhi
    rw [hlen] at h1 h2
    have hsum : (dimValues dimension (p :: ps)).sum = v * ((p :: ps).length : Int) :=
      le_antisymm h2 h1
    have hq : ((dimValues dimension (p :: ps)).sum : ℚ) / ((p :: ps).length : ℚ) = (v : ℚ) := by
      rw [div_eq_iff (ne_of_gt hnq)]
      exact_mod_cast hsum
    rw [hq]
    exact roundFloat64_intCast v hvb

theorem aggregateData_avg_between_witness :
    ((smallestValue types.Comments evA [evB] : Int) : ℚ)
      ≤ (AggregateData float64 (fun _ => [evA, evB]) 5000000000 types.Comments).AvgValue ∧
    (AggregateData float64 (fun _ => [evA, evB]) 5000000000 types.Comments).AvgValue
      ≤ ((largestValue types.Comments evA [evB] : Int) : ℚ) ∧
    smallestValue types.Comments evA [evB] = 5 ∧
    largestValue types.Comments evA [evB] = 10 ∧
    (AggregateData float64 (fun _ => [evA, evA]) 5000000000 types.Likes).AvgValue = 10 :=
  ⟨(aggregateData_avg_between (fun _ => [evA, evB]) 5000000000 types.Comments evA [evB] rfl
      (by decide) (by decide) (by decide)).1,
   (aggregateData_avg_between (fun _ => [evA, evB]) 5000000000 types.Comments evA [evB] rfl
      (by decide) (by decide) (by decide)).2.1,
   by decide, by decide,
   (aggregateData_avg_between (fun _ => [evA, evA]) 5000000000 types.Likes evA [evA] rfl
      (by decide) (by decide) (by decide)).2.2 10 (by decide)⟩

end Upfcc
